import Mathlib

/-!
# goTftp: a verification development

A shallow embedding of `main.go` (a single-file TFTP server) and theorems about
its wire codec (`TftpReader`) and its request / transfer loop (`main`).

Modelling conventions.

* A byte is a `Fin 256`; a Go `string` and a Go `[]byte` are lists of bytes.
* Go `int` values are natural numbers.  The only arithmetic the program does on
  them is `int(upper)<<8 + int(lower)` (at most 65535) and `blockNumber++`
  (at most 65536, see `ackCheck`), so no 64-bit overflow can occur.
* A `bytes.Reader` is represented by its unread bytes.
* The file system maps a path to the content of a regular file; the
  environment `Env` says which other paths are directories and which paths can
  be created.  `os.Open` succeeds on regular files and on directories.  Reading
  an open regular file never fails except with `io.EOF`; reading a directory
  always fails with another error.  Network sends and receives succeed.
* Inside the RRQ loop a failing `file.Read` (lines 141-147) makes the program
  go round the loop head for ever without returning to the socket; the model
  keeps such a program in the loop and lets it ignore every datagram.
* Log output (`println`, `fmt.Printf`) is not part of the model.
-/

namespace GoTftp

/-! ## Bytes, strings, errors -/

abbrev Byte := Fin 256

/-- A Go string: an immutable sequence of bytes. -/
abbrev GoString := List Byte

/-- Go's conversion `byte(n)` of a non-negative `int`: the low eight bits. -/
def byte (n : Nat) : Byte := ⟨n % 256, Nat.mod_lt n (by decide)⟩

/-- Go's conversion `string(b)` of a `byte` value `b`: the UTF-8 encoding of the
code point `b` (one byte below 0x80, two bytes from 0x80 on). -/
def stringOfByte (b : Byte) : GoString :=
  if b.val < 0x80 then [b]
  else [byte (0xC0 ||| (b.val >>> 6)), byte (0x80 ||| (b.val &&& 0x3F))]

/-- The error values the program can observe. -/
inductive GoError
  | EOF
  | ErrInvalid
  | ErrNotExist
  | ErrPermission
  | EISDIR
deriving DecidableEq, Repr

/-! ## `TftpReader` (main.go lines 23-62) -/

/-- A `bytes.Reader`, represented by the bytes it has not yet returned. -/
structure TftpReader where
  unread : List Byte
deriving DecidableEq, Repr

/-- Source: `NewTftpReader` (line 60). -/
def NewTftpReader (b : List Byte) : TftpReader := ⟨b⟩

/-- Source: `ReadByte` (line 25), i.e. `bytes.Reader.ReadByte`: `io.EOF` when
nothing is left, otherwise the next byte. The reader after the call is returned too. -/
def TftpReader.ReadByte (r : TftpReader) : Except GoError Byte × TftpReader :=
  match r.unread with
  | [] => (.error .EOF, r)
  | b :: rest => (.ok b, ⟨rest⟩)

/-- Source: `Read` (line 29), i.e. `bytes.Reader.Read`: `(0, io.EOF)` when
nothing is left (also for an empty destination `p`), otherwise
`n = copy(p, unread)`.  Returns the result, the destination slice after the call
and the reader after the call. -/
def TftpReader.Read (r : TftpReader) (p : List Byte) :
    Except GoError Nat × List Byte × TftpReader :=
  match r.unread with
  | [] => (.error .EOF, p, r)
  | _ :: _ =>
    let n := min p.length r.unread.length
    (.ok n, r.unread.take n ++ p.drop n, ⟨r.unread.drop n⟩)

/-- Source: `ReadInt16` (lines 33-43). -/
def TftpReader.ReadInt16 (r : TftpReader) : Except GoError Nat × TftpReader :=
  match r.ReadByte with
  | (.error err, r) => (.error err, r)
  | (.ok upper, r) =>
    match r.ReadByte with
    | (.error err, r) => (.error err, r)
    | (.ok lower, r) => (.ok ((upper.val <<< 8) + lower.val), r)

/-- The `for` loop of `ReadNullTerminatedString` (lines 47-56) with accumulator
`s`, running over the unread bytes. -/
def readStringLoop (s : GoString) : List Byte → Except GoError GoString × TftpReader
  | [] => (.error .EOF, ⟨[]⟩)
  | b :: rest =>
    if b = 0 then (.ok s, ⟨rest⟩)
    else readStringLoop (s ++ stringOfByte b) rest

/-- Source: `ReadNullTerminatedString` (lines 45-58). -/
def TftpReader.ReadNullTerminatedString (r : TftpReader) :
    Except GoError GoString × TftpReader :=
  readStringLoop [] r.unread

/-! ## Files -/

/-- The file system: path and content of every regular file. -/
abbrev FS := List (GoString × List Byte)

/-- Content of the file at `name`, if there is one. -/
def FS.content (fs : FS) (name : GoString) : Option (List Byte) :=
  match fs with
  | [] => none
  | (k, v) :: t => if k = name then some v else FS.content t name

/-- Replace (or add) the content of the file at `name`. -/
def FS.store (fs : FS) (name : GoString) (v : List Byte) : FS :=
  match fs with
  | [] => [(name, v)]
  | (k, w) :: t => if k = name then (k, v) :: t else (k, w) :: FS.store t name v

/-- An open `*os.File`: the path it was opened on and its file offset. -/
structure Handle where
  name : GoString
  off : Nat
deriving DecidableEq, Repr

/-- What the process is started with and what the operating system decides. -/
structure Env where
  /-- The served folder, `*folder` after line 70. -/
  folder : GoString
  /-- Whether `os.Create` succeeds on a path. -/
  canCreate : GoString → Bool
  /-- Whether a path that holds no regular file is a directory. -/
  isDir : GoString → Bool

/-- The call `os.Open(name)`: succeeds on an existing regular file and on a
directory, with offset 0; fails on any other path. -/
def osOpen (env : Env) (fs : FS) (name : GoString) : Except GoError Handle :=
  match fs.content name with
  | some _ => .ok ⟨name, 0⟩
  | none => if env.isDir name then .ok ⟨name, 0⟩ else .error .ErrNotExist

/-- The call `os.Create(name)`: creates or truncates the file, offset 0. -/
def osCreate (env : Env) (fs : FS) (name : GoString) : Except GoError Handle × FS :=
  if env.canCreate name then (.ok ⟨name, 0⟩, fs.store name [])
  else (.error .ErrPermission, fs)

/-- Whether the open handle is on a directory: files are never removed, so an
open handle whose path holds no regular file was opened on a directory. -/
def Handle.onDirectory (fs : FS) (file : Handle) : Bool := (fs.content file.name).isNone

/-- The call `file.Read(send)` with `len(send) = n > 0`.  On a directory it fails
with `EISDIR`.  On a regular file it returns `(0, io.EOF)` at the end of the
file, otherwise the next `min n remaining` bytes. -/
def fileRead (fs : FS) (file : Handle) (n : Nat) : Except GoError (List Byte) × Handle :=
  match fs.content file.name with
  | none => (.error .EISDIR, file)
  | some c =>
    if c.length ≤ file.off then (.error .EOF, file)
    else
      let chunk := (c.drop file.off).take n
      (.ok chunk, { file with off := file.off + chunk.length })

/-- Writing `data` into content `c` at offset `off` (a gap is filled with zeros). -/
def writeAt (c : List Byte) (off : Nat) (data : List Byte) : List Byte :=
  c.take off ++ List.replicate (off - c.length) 0 ++ data ++ c.drop (off + data.length)

/-- The call `file.Write(data)`: `ErrInvalid` on a nil file, otherwise the bytes
are written at the file offset, which advances. -/
def fileWrite (fs : FS) (file : Option Handle) (data : List Byte) :
    Except GoError (FS × Handle) :=
  match file with
  | none => .error .ErrInvalid
  | some h =>
    let c := (fs.content h.name).getD []
    .ok (fs.store h.name (writeAt c h.off data), { h with off := h.off + data.length })

/-- The calls `file.Seek(0, 0)` and `io.ReadAll(file)` in sequence: the offset ends
at the end of the file; the content read is only logged. -/
def seekAndReadAll (fs : FS) (file : Handle) : Handle :=
  { file with off := ((fs.content file.name).getD []).length }

/-! ## The server loop (main.go lines 82-308) -/

abbrev Addr := Nat

/-- A UDP datagram with its peer address. -/
structure Packet where
  addr : Addr
  data : List Byte
deriving DecidableEq, Repr

/-- The locals of the RRQ send/ack loop (lines 130-190) that are live while the
loop blocks in `ReadFrom` at line 160. -/
structure ReadLoop where
  file : Handle
  blockNumber : Nat
  addr : Addr
deriving DecidableEq, Repr

/-- The variables of `main` (lines 82-85), the file system, and the state of the
RRQ loop when the program is inside it. -/
structure Server where
  fs : FS
  transmissionInProgress : Bool
  hideDataMessages : Bool
  filename : GoString
  file : Option Handle
  reading : Option ReadLoop
deriving DecidableEq, Repr

/-- Lines 139-156: the head of one iteration of the RRQ loop, from `file.Read`
to `WriteTo`.  At end of file the loop is left (`break`, line 143).  On any
other read error the `continue` of line 146 goes back to the same failing
`file.Read`: the program stays at the loop head for ever, which the model
records as still being in the loop with the same locals.  Otherwise one Data
datagram is sent and the program blocks for the next datagram. -/
def readLoopSend (s : Server) (r : ReadLoop) : Server × List Packet :=
  match fileRead s.fs r.file 512 with
  | (.error .EOF, _) => ({ s with reading := none }, [])
  | (.error _, _) => ({ s with reading := some r }, [])
  | (.ok send, file) =>
    let send := [0, 3, byte (r.blockNumber >>> 8), byte r.blockNumber] ++ send
    ({ s with reading := some { r with file := file } }, [⟨r.addr, send⟩])

/-- Lines 159-189: the datagram received while waiting for the ack.  Every
`continue` leaves `blockNumber` as it is; only line 189 increments it. -/
def ackCheck (r : ReadLoop) (p : Packet) : ReadLoop :=
  let buf := p.data.take 1024
  let msg := NewTftpReader buf
  match msg.ReadInt16 with
  | (.error _, _) => r
  | (.ok msgType, msg) =>
    if msgType ≠ 4 then r
    else
      match msg.ReadInt16 with
      | (.error _, _) => r
      | (.ok ackBlockNumber, _) =>
        if ackBlockNumber ≠ r.blockNumber then r
        else { r with blockNumber := r.blockNumber + 1 }

/-- Lines 105-136: the RRQ case up to the start of the send/ack loop. -/
def caseRRQ (env : Env) (s : Server) (addr : Addr) (msg : TftpReader) :
    Server × List Packet :=
  match msg.ReadNullTerminatedString with
  | (.error _, _) => (s, [])
  | (.ok fileName, msg) =>
    match msg.ReadNullTerminatedString with
    | (.error _, _) => (s, [])
    | (.ok _, _) =>
      match osOpen env s.fs (env.folder ++ fileName) with
      | .error _ => (s, [])
      | .ok file => readLoopSend s ⟨file, 1, addr⟩

/-- Lines 193-236: the WRQ case. -/
def caseWRQ (env : Env) (s : Server) (addr : Addr) (msg : TftpReader) :
    Server × List Packet :=
  if s.transmissionInProgress then (s, [])
  else
    match msg.ReadNullTerminatedString with
    | (.error _, _) => (s, [])
    | (.ok fileName, msg) =>
      match msg.ReadNullTerminatedString with
      | (.error _, _) => (s, [])
      | (.ok _, _) =>
        let s := { s with transmissionInProgress := true, filename := fileName }
        match osCreate env s.fs (env.folder ++ s.filename) with
        | (.error _, fs) => ({ s with fs := fs, file := none }, [])
        | (.ok file, fs) => ({ s with fs := fs, file := some file }, [⟨addr, [0, 4, 0, 0]⟩])

/-- Go's `make([]byte, n)` for an `int` length `n`: a slice of `n` zero bytes;
`none` stands for the run-time panic on a negative length. -/
def goMake (n : Int) : Option (List Byte) :=
  if n < 0 then none else some (List.replicate n.toNat 0)

/-- The program point of line 265, where the DATA case calls
`make([]byte, len(buf)-4)`: the state, the block number read, the reader, and
the length passed to `make`. -/
structure AllocPoint where
  s : Server
  blockNum : Nat
  msg : TftpReader
  length : Int

/-- Lines 237-264: the DATA case from its guard up to the allocation of line 265;
`buf` is the received datagram, `msg` the reader after the opcode.  A `continue`
before the allocation is `.error` with the state at that point. -/
def dataToAlloc (s : Server) (buf : List Byte) (msg : TftpReader) :
    Except Server AllocPoint :=
  if !s.transmissionInProgress then .error s
  else
    match msg.ReadInt16 with
    | (.error _, _) => .error s
    | (.ok blockNum, msg) =>
      let s := if blockNum > 1000 && !s.hideDataMessages
        then { s with hideDataMessages := true } else s
      .ok ⟨s, blockNum, msg, (buf.length : Int) - 4⟩

/-- Lines 265-304: the DATA case from the allocation on.  `none` stands for a
panic of `make`. -/
def dataFromAlloc (addr : Addr) (a : AllocPoint) : Option (Server × List Packet) :=
  match goMake a.length with
  | none => none
  | some blockDate =>
    match a.msg.Read blockDate with
    | (.error _, _, _) => some (a.s, [])
    | (.ok i, blockDate, _) =>
      match fileWrite a.s.fs a.s.file blockDate with
      | .error _ => some (a.s, [])
      | .ok (fs, file) =>
        let s := { a.s with fs := fs, file := some file }
        let s := if i < 512
          then { s with file := some (seekAndReadAll s.fs file),
                        transmissionInProgress := false,
                        hideDataMessages := false }
          else s
        some (s, [⟨addr, [0, 4, byte (a.blockNum >>> 8), byte a.blockNum]⟩])

/-- Lines 237-304: the DATA case; `buf` is the received datagram, `msg` the reader
after the opcode.  A panic of `make` would end the program; the panic branch is
never taken on a datagram dispatched by `mainIter`, which reaches the allocation
only with at least four bytes in `buf` (see `short_datagram_no_alloc`). -/
def caseDATA (s : Server) (addr : Addr) (buf : List Byte) (msg : TftpReader) :
    Server × List Packet :=
  match dataToAlloc s buf msg with
  | .error s => (s, [])
  | .ok a =>
    match dataFromAlloc addr a with
    | some r => r
    | none => (a.s, [])

/-- Lines 88-307: one iteration of the outer loop on a received datagram. -/
def mainIter (env : Env) (s : Server) (p : Packet) : Server × List Packet :=
  let buf := p.data.take 1024
  let msg := NewTftpReader buf
  match msg.ReadInt16 with
  | (.error _, _) => (s, [])
  | (.ok msgType, msg) =>
    match msgType with
    | 1 => caseRRQ env s p.addr msg
    | 2 => caseWRQ env s p.addr msg
    | 3 => caseDATA s p.addr buf msg
    | _ => (s, [])

/-- The path of the outer loop from `ReadFrom` (line 89) to the allocation of
line 265 on a received datagram: `some` when control reaches the allocation
(the opcode was read and is 3, and the DATA case got as far as line 265),
`none` when a `continue` or another case comes first. -/
def mainToAlloc (s : Server) (p : Packet) : Option AllocPoint :=
  let buf := p.data.take 1024
  let msg := NewTftpReader buf
  match msg.ReadInt16 with
  | (.error _, _) => none
  | (.ok msgType, msg) =>
    match msgType with
    | 3 =>
      match dataToAlloc s buf msg with
      | .error _ => none
      | .ok a => some a
    | _ => none

/-- What the program does with the next datagram that arrives: inside the RRQ
loop, blocked in `ReadFrom` (line 160), the datagram is checked as an ack and the
loop goes round; inside the RRQ loop on a directory the program never reaches
`ReadFrom`, so the datagram is not received and nothing changes; otherwise the
datagram is dispatched by the outer loop.  Returns the new state and the
datagrams sent. -/
def step (env : Env) (s : Server) (p : Packet) : Server × List Packet :=
  match s.reading with
  | some r =>
    if r.file.onDirectory s.fs then (s, [])
    else readLoopSend s (ackCheck r p)
  | none => mainIter env s p

/-- What an observer of the socket sees. -/
inductive Event
  | recv (p : Packet)
  | send (p : Packet)
deriving DecidableEq, Repr

/-- The program on a sequence of received datagrams: final state and the trace
of receives and sends in order. -/
def run (env : Env) (s : Server) : List Packet → Server × List Event
  | [] => (s, [])
  | p :: ps =>
    let r := step env s p
    let rest := run env r.1 ps
    (rest.1, Event.recv p :: (r.2.map Event.send ++ rest.2))

/-- The datagrams sent in a trace, in order. -/
def sent : List Event → List Packet
  | [] => []
  | Event.recv _ :: t => sent t
  | Event.send p :: t => p :: sent t

/-- The state at program start (lines 82-85) on file system `fs`. -/
def initial (fs : FS) : Server :=
  { fs := fs, transmissionInProgress := false, hideDataMessages := false,
    filename := [], file := none, reading := none }

/-- The four bytes of an Ack as the program builds them (line 300). -/
def ackBytes (blockNum : Nat) : List Byte :=
  [0, 4, byte (blockNum >>> 8), byte blockNum]

/-- The bytes of a Data message as the program builds them (line 150). -/
def dataBytes (blockNumber : Nat) (payload : List Byte) : List Byte :=
  [0, 3, byte (blockNumber >>> 8), byte blockNumber] ++ payload

/-- What the loop of `ReadNullTerminatedString` appends for the bytes `f`. -/
def decodeBytes : List Byte → GoString
  | [] => []
  | b :: t => stringOfByte b ++ decodeBytes t

/-- An environment for concrete runs: the folder `./` is the only directory,
every other path can be created. -/
def exampleEnv : Env :=
  ⟨[46, 47], fun name => decide (name ≠ [46, 47]), fun name => decide (name = [46, 47])⟩

/-- The datagram `data` decodes as an Ack whose block number is `bn`: opcode
bytes `0, 4`, then two bytes whose big-endian value is `bn`. -/
def IsAckFor (bn : Nat) (data : List Byte) : Prop :=
  ∃ hi lo rest, data = 0 :: 4 :: hi :: lo :: rest ∧ 256 * hi.val + lo.val = bn

/-- The payload of block `k + 1` of content `c`: bytes `512 * k` up to `512 * k + 511`. -/
def blockOf (c : List Byte) (k : Nat) : List Byte := (c.drop (512 * k)).take 512

/-- The number of blocks content `c` needs: its length over 512, rounded up. -/
def blockCount (c : List Byte) : Nat := (c.length + 511) / 512

/-- A trace in which each datagram of `ds` is sent and then the datagram of `as`
at the same position is received. -/
def lockstep (ds as : List Packet) : List Event :=
  (List.zip ds as).flatMap (fun da => [Event.send da.1, Event.recv da.2])

/-- A well-formed request datagram: opcode `op`, zero-free filename `f` and mode
`m` with their terminators, then options, with both strings inside the 1024-byte
receive buffer. -/
def requestBytes (op : Byte) (f m opts : List Byte) : List Byte :=
  0 :: op :: (f ++ 0 :: (m ++ 0 :: opts))

/-- A Data datagram as a client sends it: peer address, block number, payload. -/
structure DataBlock where
  addr : Addr
  blockNum : Nat
  payload : List Byte
deriving DecidableEq, Repr

/-- The datagram of a Data block: `[0, 3, byte(b>>8), byte(b)]` and the payload. -/
def DataBlock.packet (d : DataBlock) : Packet := ⟨d.addr, dataBytes d.blockNum d.payload⟩

/-- The Ack the program answers a Data block with (line 300), to the block's sender. -/
def DataBlock.ack (d : DataBlock) : Packet := ⟨d.addr, ackBytes d.blockNum⟩

/-- A write transfer is in progress outside the read loop, with the write handle
on `path` at the end of the file content `c`. -/
def Writing (s : Server) (path : GoString) (c : List Byte) : Prop :=
  s.reading = none ∧ s.transmissionInProgress = true ∧
  s.file = some ⟨path, c.length⟩ ∧ s.fs.content path = some c

/-- The state right after a WRQ for `./a` was accepted on an empty file system:
the file exists and is empty, the write handle is at offset 0. -/
def writingExample : Server :=
  { initial [([46, 47, 97], [])] with
    transmissionInProgress := true, filename := [97], file := some ⟨[46, 47, 97], 0⟩ }

/-- The bytes `d` are a Data message (`0, 3`, two block-number bytes, a payload)
or an Ack message (`0, 4` and two block-number bytes). -/
def IsDataOrAck (d : List Byte) : Prop :=
  (∃ hi lo payload, d = 0 :: 3 :: hi :: lo :: payload) ∨ (∃ hi lo, d = [0, 4, hi, lo])

/-- An environment in which creating `./x` (and the directory `./`) fails and
every other file can be created. -/
def denyEnv : Env :=
  ⟨[46, 47], fun name => decide (name ≠ [46, 47, 120] ∧ name ≠ [46, 47]),
    fun name => decide (name = [46, 47])⟩

/-- A write transfer to `./b` is in progress (just accepted, nothing written yet)
while the file `./a` with 600 bytes exists; `reading` is the state of the read
loop. -/
def writingBesideFile (reading : Option ReadLoop) : Server :=
  { fs := [([46, 47, 97], List.replicate 600 7), ([46, 47, 98], [])],
    transmissionInProgress := true, hideDataMessages := false,
    filename := [98], file := some ⟨[46, 47, 98], 0⟩, reading := reading }

/-- A file of 65536 full blocks and 100 bytes more (33554532 bytes). -/
def bigFile : List Byte := List.replicate 33554532 7

/-- The server with `./a` holding `bigFile` and no write transfer; `reading` is
the state of the read loop. -/
def bigFileServer (reading : Option ReadLoop) : Server :=
  { initial [([46, 47, 97], bigFile)] with reading := reading }

/-- The Ack datagrams for blocks `1, ..., n`, from peer 9. -/
def firstAcks (n : Nat) : List Packet :=
  (List.range n).map (fun k => (⟨9, ackBytes (k + 1)⟩ : Packet))

theorem readStringLoop_zero (s : GoString) (f rest : List Byte) (h : (0 : Byte) ∉ f) :
    readStringLoop s (f ++ 0 :: rest) = (.ok (s ++ decodeBytes f), ⟨rest⟩) := by
  induction f generalizing s with
  | nil => simp [readStringLoop, decodeBytes]
  | cons b t ih =>
    have hb : b ≠ 0 := fun e => h (by simp [e])
    have ht : (0 : Byte) ∉ t := fun e => h (by simp [e])
    simp [readStringLoop, hb, ih _ ht, decodeBytes]

theorem readInt16_cons (hi lo : Byte) (rest : List Byte) :
    (NewTftpReader (hi :: lo :: rest)).ReadInt16
      = (.ok (256 * hi.val + lo.val), NewTftpReader rest) := by
  simp [TftpReader.ReadInt16, TftpReader.ReadByte, NewTftpReader, Nat.shiftLeft_eq]
  omega

theorem readInt16_short (r : TftpReader) (h : r.unread.length < 2) :
    ∃ r2, r.ReadInt16 = (.error .EOF, r2) := by
  rcases r with ⟨l⟩
  match l, h with
  | [], _ => exact ⟨_, rfl⟩
  | [b], _ => exact ⟨_, rfl⟩

theorem byte_val (n : Nat) : (byte n).val = n % 256 := rfl

/-- C4. `ReadInt16` succeeds exactly when at least two bytes are unread; on
unread bytes `hi, lo, rest` it returns `256 * hi + lo`, which is at most 65535,
and leaves exactly `rest` unread. -/
theorem C4_readInt16_bigEndian (r : TftpReader) (hi lo : Byte) (rest : List Byte) :
    ((∃ v r2, r.ReadInt16 = (.ok v, r2)) ↔ 2 ≤ r.unread.length) ∧
    (NewTftpReader (hi :: lo :: rest)).ReadInt16
      = (.ok (256 * hi.val + lo.val), NewTftpReader rest) ∧
    256 * hi.val + lo.val ≤ 65535 ∧
    (NewTftpReader rest).unread.length + 2 = (NewTftpReader (hi :: lo :: rest)).unread.length := by
  refine ⟨⟨?_, ?_⟩, readInt16_cons hi lo rest, ?_, ?_⟩
  · rintro ⟨v, r2, h⟩
    by_contra hlt
    obtain ⟨r3, h3⟩ := readInt16_short r (by omega)
    rw [h3] at h
    cases h
  · intro h
    rcases r with ⟨l⟩
    match l, h with
    | a :: b :: t, _ => exact ⟨_, _, readInt16_cons a b t⟩
  · have := hi.isLt
    have := lo.isLt
    omega
  · simp [NewTftpReader]

/-- C3. For a block number `n` below 65536, two `ReadInt16` calls on the Ack
bytes `[0, 4, byte(n>>8), byte(n)]` return opcode 4 and then `n`, and encoding
the decoded number again gives the same four bytes. -/
theorem C3_ack_roundtrip (n : Nat) (h : n < 65536) :
    ∃ r1 r2 b,
      (NewTftpReader [0, 4, byte (n >>> 8), byte n]).ReadInt16 = (.ok 4, r1) ∧
      r1.ReadInt16 = (.ok b, r2) ∧ b = n ∧ r2.unread = [] ∧
      ackBytes b = [0, 4, byte (n >>> 8), byte n] := by
  refine ⟨NewTftpReader [byte (n >>> 8), byte n], NewTftpReader [], n, ?_, ?_, rfl, rfl, rfl⟩
  · rw [readInt16_cons]; rfl
  · rw [readInt16_cons]
    have e : 256 * (byte (n >>> 8)).val + (byte n).val = n := by
      simp only [byte_val, Nat.shiftRight_eq_div_pow]
      omega
    rw [e]

theorem C3_ack_roundtrip_witness :
    ∃ r1 r2 b,
      (NewTftpReader [0, 4, byte (513 >>> 8), byte 513]).ReadInt16 = (.ok 4, r1) ∧
      r1.ReadInt16 = (.ok b, r2) ∧ b = 513 ∧ r2.unread = [] ∧
      ackBytes b = [0, 4, byte (513 >>> 8), byte 513] :=
  C3_ack_roundtrip 513 (by decide)

theorem decodeBytes_ascii (f : List Byte) (h : ∀ b ∈ f, b.val < 0x80) : decodeBytes f = f := by
  induction f with
  | nil => rfl
  | cons b t ih =>
    have hb : b.val < 0x80 := h b (by simp)
    have ht : ∀ c ∈ t, c.val < 0x80 := fun c hc => h c (by simp [hc])
    simp [decodeBytes, stringOfByte, hb, ih ht]

theorem readString_ok (f rest : List Byte) (h : (0 : Byte) ∉ f) :
    (NewTftpReader (f ++ 0 :: rest)).ReadNullTerminatedString
      = (.ok (decodeBytes f), NewTftpReader rest) := by
  simpa [TftpReader.ReadNullTerminatedString, NewTftpReader] using readStringLoop_zero [] f rest h

/-- The outer loop on a datagram that starts with opcode bytes `0, op`. -/
theorem mainIter_opcode (env : Env) (s : Server) (addr : Addr) (op : Byte) (body : List Byte) :
    mainIter env s ⟨addr, 0 :: op :: body⟩ =
      (match op.val with
       | 1 => caseRRQ env s addr (NewTftpReader (body.take 1022))
       | 2 => caseWRQ env s addr (NewTftpReader (body.take 1022))
       | 3 => caseDATA s addr (0 :: op :: body.take 1022) (NewTftpReader (body.take 1022))
       | _ => (s, [])) := by
  have e : (0 :: op :: body).take 1024 = 0 :: op :: body.take 1022 := by simp
  simp only [mainIter, e, readInt16_cons]
  simp

/-- C1, evaluated on a filename byte from 0x80 on: for the field `[0xE9, 0]` the
string returned is the two bytes `0xC3 0xA9`, not the byte `0xE9`; an RRQ for the
existing file `./` ++ `[0xE9]` therefore opens nothing and sends nothing. -/
theorem C1_high_byte_reencoded :
    (NewTftpReader [0xE9, 0]).ReadNullTerminatedString
      = (.ok [0xC3, 0xA9], NewTftpReader []) ∧
    ([0xC3, 0xA9] : GoString) ≠ [0xE9] ∧
    step exampleEnv (initial [([46, 47, 0xE9], [7])])
        ⟨9, [0, 1, 0xE9, 0, 111, 99, 116, 101, 116, 0]⟩
      = (initial [([46, 47, 0xE9], [7])], []) :=
  ⟨rfl, by decide, rfl⟩

theorem readLoopSend_eof (s : Server) (r : ReadLoop) (c : List Byte)
    (hc : s.fs.content r.file.name = some c) (h : c.length ≤ r.file.off) :
    readLoopSend s r = ({ s with reading := none }, []) := by
  simp [readLoopSend, fileRead, hc, h]

theorem readLoopSend_data (s : Server) (r : ReadLoop) (c : List Byte)
    (hc : s.fs.content r.file.name = some c) (h : r.file.off < c.length) :
    readLoopSend s r =
      ({ s with reading := some { r with file :=
            { r.file with off := r.file.off + min 512 (c.length - r.file.off) } } },
       [⟨r.addr, dataBytes r.blockNumber ((c.drop r.file.off).take 512)⟩]) := by
  have h2 : ¬ c.length ≤ r.file.off := by omega
  simp [readLoopSend, fileRead, hc, h2, dataBytes]

/-- A read that returns bytes is a read of a regular file, and the handle stays
on the same path. -/
theorem fileRead_ok (fs : FS) (h : Handle) (n : Nat) (send : List Byte) (file : Handle)
    (hread : fileRead fs h n = (.ok send, file)) :
    ∃ c, fs.content h.name = some c ∧ file.name = h.name := by
  unfold fileRead at hread
  split at hread
  · simp at hread
  · rename_i c hc
    split at hread
    · simp at hread
    · simp only [Prod.mk.injEq, Except.ok.injEq] at hread
      refine ⟨c, hc, ?_⟩
      rw [← hread.2]

/-- Inside the read loop on a regular file the program is blocked in `ReadFrom`:
the next datagram is checked as an ack and the loop goes round. -/
theorem step_reading (env : Env) (s : Server) (r : ReadLoop) (p : Packet) (c : List Byte)
    (hr : s.reading = some r) (hc : s.fs.content r.file.name = some c) :
    step env s p = readLoopSend s (ackCheck r p) := by
  rw [step, hr]
  simp [Handle.onDirectory, hc]

/-- Inside the read loop on a directory the program never returns to the socket:
a datagram that arrives changes nothing and nothing is sent. -/
theorem step_spinning (env : Env) (s : Server) (r : ReadLoop) (p : Packet)
    (hr : s.reading = some r) (hd : r.file.onDirectory s.fs = true) :
    step env s p = (s, []) := by
  rw [step, hr]
  simp [hd]

theorem opcode_bytes (a b : Byte) (n : Nat) (h : 256 * a.val + b.val = n) (hn : n < 256) :
    a = 0 ∧ b = byte n := by
  have h1 := a.isLt
  have h2 := b.isLt
  constructor <;> apply Fin.ext <;> simp [byte] <;> omega

theorem ackCheck_cons (r : ReadLoop) (addr : Addr) (a b hi lo : Byte) (rest : List Byte) :
    ackCheck r ⟨addr, a :: b :: hi :: lo :: rest⟩ =
      if a = 0 ∧ b = 4 ∧ 256 * hi.val + lo.val = r.blockNumber
      then { r with blockNumber := r.blockNumber + 1 } else r := by
  have e : (a :: b :: hi :: lo :: rest).take 1024 = a :: b :: hi :: lo :: rest.take 1020 := by
    simp
  simp only [ackCheck, e, readInt16_cons]
  by_cases h4 : 256 * a.val + b.val = 4
  · obtain ⟨ha, hb⟩ := opcode_bytes a b 4 h4 (by decide)
    have hb4 : b = 4 := hb
    simp only [h4, ne_eq, not_true_eq_false, if_false]
    by_cases hn : 256 * hi.val + lo.val = r.blockNumber <;> simp [ha, hb4, hn]
  · have hn2 : ¬ (a = 0 ∧ b = 4 ∧ 256 * hi.val + lo.val = r.blockNumber) := by
      rintro ⟨rfl, rfl, _⟩
      exact h4 rfl
    simp [h4, hn2]

theorem ackCheck_short (r : ReadLoop) (p : Packet) (h : p.data.length < 4) :
    ackCheck r p = r := by
  rcases p with ⟨addr, data⟩
  match data, h with
  | [], _ => rfl
  | [_], _ => rfl
  | [a, b], _ =>
    simp only [ackCheck, List.take, readInt16_cons]
    split <;> rfl
  | [a, b, c], _ =>
    simp only [ackCheck, List.take, readInt16_cons]
    split <;> rfl

theorem ackCheck_ackBytes (r : ReadLoop) (p : Packet) (h : p.data = ackBytes r.blockNumber)
    (hbn : r.blockNumber < 65536) :
    ackCheck r p = { r with blockNumber := r.blockNumber + 1 } := by
  rcases p with ⟨addr, data⟩
  simp only at h
  subst h
  rw [ackBytes, ackCheck_cons]
  have e : 256 * (byte (r.blockNumber >>> 8)).val + (byte r.blockNumber).val
      = r.blockNumber := by
    simp only [byte_val, Nat.shiftRight_eq_div_pow]
    omega
  simp [e]

theorem run_nil (env : Env) (s : Server) : run env s [] = (s, []) := rfl

theorem run_cons (env : Env) (s : Server) (p : Packet) (ps : List Packet) :
    run env s (p :: ps) =
      ((run env (step env s p).1 ps).1,
       Event.recv p :: ((step env s p).2.map Event.send ++ (run env (step env s p).1 ps).2)) := rfl

theorem lockstep_cons (d a : Packet) (ds as : List Packet) :
    lockstep (d :: ds) (a :: as) = Event.send d :: Event.recv a :: lockstep ds as := by
  simp [lockstep]

/-- The send/ack loop from the head of the iteration for block `k + 1`, when the
datagrams received next are the acks of blocks `k + 1, k + 2, ...` up to the last
block: the loop sends each block, receives its ack, and leaves at end of file. -/
theorem readLoop_lockstep (env : Env) (name : GoString) (c : List Byte) (addr : Addr)
    (acks : List Packet) :
    ∀ (k : Nat) (s : Server),
      s.fs.content name = some c →
      acks.map Packet.data = (List.range' k acks.length).map (fun i => ackBytes (i + 1)) →
      k + acks.length = blockCount c →
      k + acks.length ≤ 65535 →
      (run env (readLoopSend s ⟨⟨name, min (512 * k) c.length⟩, k + 1, addr⟩).1 acks).1
          = { s with reading := none } ∧
      (readLoopSend s ⟨⟨name, min (512 * k) c.length⟩, k + 1, addr⟩).2.map Event.send
          ++ (run env (readLoopSend s ⟨⟨name, min (512 * k) c.length⟩, k + 1, addr⟩).1 acks).2
        = lockstep ((List.range' k acks.length).map
            (fun i => (⟨addr, dataBytes (i + 1) (blockOf c i)⟩ : Packet))) acks := by
  induction acks with
  | nil =>
    intro k s hc _ hk _
    have hlen : c.length ≤ 512 * k := by
      simp only [blockCount, List.length_nil, Nat.add_zero] at hk
      omega
    have hmin : min (512 * k) c.length = c.length := by omega
    rw [hmin, readLoopSend_eof s _ c hc (le_refl _)]
    simp [run_nil, lockstep]
  | cons a as ih =>
    intro k s hc hacks hk hbound
    simp only [List.length_cons] at hk hbound hacks
    have hlen : 512 * k < c.length := by
      simp only [blockCount] at hk
      omega
    have hmin : min (512 * k) c.length = 512 * k := by omega
    rw [List.range'_succ, List.map_cons, List.map_cons] at hacks
    obtain ⟨ha, has⟩ := List.cons.inj hacks
    rw [hmin, readLoopSend_data s _ c hc hlen]
    simp only [run_cons, step, Handle.onDirectory, hc, Option.isNone_some, Bool.false_eq_true,
      if_false]
    have hack : ackCheck ⟨⟨name, 512 * k + min 512 (c.length - 512 * k)⟩, k + 1, addr⟩ a
        = ⟨⟨name, min (512 * (k + 1)) c.length⟩, k + 1 + 1, addr⟩ := by
      have hoff : 512 * k + min 512 (c.length - 512 * k) = min (512 * (k + 1)) c.length := by
        omega
      have hlt : k + 1 < 65536 := by omega
      rw [hoff]
      exact ackCheck_ackBytes ⟨⟨name, min (512 * (k + 1)) c.length⟩, k + 1, addr⟩ a ha hlt
    rw [hack]
    obtain ⟨ih1, ih2⟩ := ih (k + 1)
      { s with reading := some ⟨⟨name, 512 * k + min 512 (c.length - 512 * k)⟩, k + 1, addr⟩ }
      hc has (by omega) (by omega)
    refine ⟨ih1, ?_⟩
    simp only [List.length_cons, List.range'_succ, List.map_cons, lockstep_cons,
      List.singleton_append, List.cons_append, List.nil_append, blockOf]
    rw [ih2]
    rfl

theorem take_append_cons {α : Type} (f : List α) (x : α) (t : List α) (k : Nat)
    (h : f.length < k) : (f ++ x :: t).take k = f ++ x :: t.take (k - f.length - 1) := by
  induction f generalizing k with
  | nil =>
    cases k with
    | zero => simp at h
    | succ j => simp
  | cons y ys ih =>
    cases k with
    | zero => simp at h
    | succ j =>
      simp only [List.length_cons] at h
      simp only [List.cons_append, List.take_succ_cons, List.length_cons]
      rw [ih j (by omega)]
      have e : j + 1 - (ys.length + 1) - 1 = j - ys.length - 1 := by omega
      rw [e]

/-- The two strings of a well-formed request survive the cut of the receive
buffer to 1024 bytes. -/
theorem request_take (f m opts : List Byte) (hfit : f.length + m.length + 4 ≤ 1024) :
    ∃ opts2, (f ++ 0 :: (m ++ 0 :: opts)).take 1022 = f ++ 0 :: (m ++ 0 :: opts2) := by
  rw [take_append_cons f 0 _ 1022 (by omega), take_append_cons m 0 _ _ (by omega)]
  exact ⟨_, rfl⟩

theorem caseRRQ_request (env : Env) (s : Server) (addr : Addr) (f m opts : List Byte)
    (hf : (0 : Byte) ∉ f) (hm : (0 : Byte) ∉ m) :
    caseRRQ env s addr (NewTftpReader (f ++ 0 :: (m ++ 0 :: opts))) =
      (match osOpen env s.fs (env.folder ++ decodeBytes f) with
       | .error _ => (s, [])
       | .ok file => readLoopSend s ⟨file, 1, addr⟩) := by
  simp only [caseRRQ, readString_ok f _ hf, readString_ok m _ hm]

theorem blockOf_length (c : List Byte) (k : Nat) : (blockOf c k).length ≤ 512 := by
  simp [blockOf]

theorem blocks_concat (n : Nat) : ∀ c : List Byte, c.length ≤ 512 * n →
    (List.range n).flatMap (blockOf c) = c := by
  induction n with
  | zero =>
    intro c h
    have : c = [] := List.length_eq_zero.1 (by omega)
    simp [this]
  | succ n ih =>
    intro c h
    rw [List.range_succ_eq_map, List.flatMap_cons, List.flatMap_map]
    have e : ∀ k, blockOf c (Nat.succ k) = blockOf (c.drop 512) k := by
      intro k
      simp only [blockOf, List.drop_drop]
      have e3 : 512 * Nat.succ k = 512 + 512 * k := by
        simp only [Nat.succ_eq_add_one]
        omega
      rw [e3]
    have e2 : (List.range n).flatMap (fun k => blockOf c (Nat.succ k))
        = (List.range n).flatMap (blockOf (c.drop 512)) := by
      congr 1
      funext k
      exact e k
    rw [e2, ih (c.drop 512) (by simp only [List.length_drop]; omega)]
    simp [blockOf]

theorem sent_lockstep (ds : List Packet) : ∀ as : List Packet, ds.length = as.length →
    sent (lockstep ds as) = ds := by
  induction ds with
  | nil => intro as _; simp [lockstep, sent]
  | cons d ds ih =>
    intro as h
    cases as with
    | nil => simp at h
    | cons a as =>
      simp only [List.length_cons, Nat.add_right_cancel_iff] at h
      rw [lockstep_cons]
      simp only [sent, ih as h]

/-- C6. Outside a read transfer, a well-formed RRQ for a file with content `c`
of at most 65535 blocks, followed by the acks of blocks 1, 2, ... in order, gives
this trace: the RRQ is received, then for k = 1, 2, ... the Data message
`[0, 3, byte(k>>8), byte(k)]` ++ (the k-th 512-byte block of `c`) is sent and the
ack for k is received before anything else is sent.  The transfer ends with the
state unchanged, every payload has at most 512 bytes, and the payloads in send
order concatenate to `c`. -/
theorem C6_read_transfer_lockstep (env : Env) (s : Server) (addr : Addr)
    (f m opts c : List Byte) (acks : List Packet)
    (hs : s.reading = none) (hf : (0 : Byte) ∉ f) (hm : (0 : Byte) ∉ m)
    (hfit : f.length + m.length + 4 ≤ 1024)
    (hc : s.fs.content (env.folder ++ decodeBytes f) = some c)
    (hblocks : blockCount c ≤ 65535)
    (hacks : acks.map Packet.data
      = (List.range (blockCount c)).map (fun k => [0, 4, byte ((k + 1) >>> 8), byte (k + 1)])) :
    run env s (⟨addr, requestBytes 1 f m opts⟩ :: acks)
      = (s, Event.recv ⟨addr, requestBytes 1 f m opts⟩ ::
          lockstep ((List.range (blockCount c)).map (fun k =>
            (⟨addr, [0, 3, byte ((k + 1) >>> 8), byte (k + 1)] ++ blockOf c k⟩ : Packet))) acks) ∧
    sent (run env s (⟨addr, requestBytes 1 f m opts⟩ :: acks)).2
      = (List.range (blockCount c)).map (fun k =>
          (⟨addr, [0, 3, byte ((k + 1) >>> 8), byte (k + 1)] ++ blockOf c k⟩ : Packet)) ∧
    (∀ k, (blockOf c k).length ≤ 512) ∧
    (List.range (blockCount c)).flatMap (blockOf c) = c := by
  have hlen : acks.length = blockCount c := by
    have := congrArg List.length hacks
    simpa using this
  have hstep : step env s ⟨addr, requestBytes 1 f m opts⟩
      = readLoopSend s ⟨⟨env.folder ++ decodeBytes f, min (512 * 0) c.length⟩, 0 + 1, addr⟩ := by
    obtain ⟨opts2, ht⟩ := request_take f m opts hfit
    rw [step, hs]
    simp only [requestBytes, mainIter_opcode, ht]
    show caseRRQ env s addr _ = _
    rw [caseRRQ_request env s addr f m opts2 hf hm]
    simp [osOpen, hc]
  have hacks2 : acks.map Packet.data
      = (List.range' 0 acks.length).map (fun i => ackBytes (i + 1)) := by
    rw [hacks, hlen, List.range_eq_range']
    rfl
  obtain ⟨h1, h2⟩ := readLoop_lockstep env (env.folder ++ decodeBytes f) c addr acks 0 s hc
    hacks2 (by omega) (by omega)
  have hs2 : ({ s with reading := none } : Server) = s := by
    cases s
    simp only at hs
    simp [hs]
  have hrun : run env s (⟨addr, requestBytes 1 f m opts⟩ :: acks)
      = (s, Event.recv ⟨addr, requestBytes 1 f m opts⟩ ::
          lockstep ((List.range (blockCount c)).map (fun k =>
            (⟨addr, [0, 3, byte ((k + 1) >>> 8), byte (k + 1)] ++ blockOf c k⟩ : Packet))) acks) := by
    rw [run_cons, hstep, h1, h2, hs2, hlen, List.range_eq_range']
    rfl
  refine ⟨hrun, ?_, blockOf_length c, blocks_concat (blockCount c) c ?_⟩
  · rw [hrun]
    simp only [sent]
    exact sent_lockstep _ acks (by simp [hlen])
  · simp only [blockCount]
    omega

theorem C6_read_transfer_lockstep_witness :
    run exampleEnv (initial [([46, 47, 97], [7, 8, 9])])
        (⟨9, requestBytes 1 [97] [111] []⟩ :: [⟨5, [0, 4, 0, 1]⟩])
      = (initial [([46, 47, 97], [7, 8, 9])], Event.recv ⟨9, requestBytes 1 [97] [111] []⟩ ::
          lockstep ((List.range (blockCount [7, 8, 9])).map (fun k =>
            (⟨9, [0, 3, byte ((k + 1) >>> 8), byte (k + 1)] ++ blockOf [7, 8, 9] k⟩ : Packet)))
            [⟨5, [0, 4, 0, 1]⟩]) ∧
    sent (run exampleEnv (initial [([46, 47, 97], [7, 8, 9])])
        (⟨9, requestBytes 1 [97] [111] []⟩ :: [⟨5, [0, 4, 0, 1]⟩])).2
      = (List.range (blockCount [7, 8, 9])).map (fun k =>
          (⟨9, [0, 3, byte ((k + 1) >>> 8), byte (k + 1)] ++ blockOf [7, 8, 9] k⟩ : Packet)) ∧
    (∀ k, (blockOf [7, 8, 9] k).length ≤ 512) ∧
    (List.range (blockCount [7, 8, 9])).flatMap (blockOf [7, 8, 9]) = [7, 8, 9] :=
  C6_read_transfer_lockstep exampleEnv (initial [([46, 47, 97], [7, 8, 9])]) 9 [97] [111] []
    [7, 8, 9] [⟨5, [0, 4, 0, 1]⟩] rfl (by decide) (by decide) (by decide) rfl (by decide) rfl

set_option maxRecDepth 100000 in
/-- C5, evaluated on a file of exactly 1024 bytes whose Data blocks are all
acknowledged: the server sends Data 1 and Data 2 with 512 bytes each and leaves
the loop at end of file; no Data 3 with an empty payload is sent. -/
theorem C5_no_empty_final_block :
    sent (run exampleEnv (initial [([46, 47, 97], List.replicate 1024 7)])
      [⟨9, [0, 1, 97, 0, 111, 99, 116, 101, 116, 0]⟩, ⟨9, [0, 4, 0, 1]⟩, ⟨9, [0, 4, 0, 2]⟩]).2
      = [⟨9, [0, 3, 0, 1] ++ List.replicate 512 7⟩, ⟨9, [0, 3, 0, 2] ++ List.replicate 512 7⟩] ∧
    (run exampleEnv (initial [([46, 47, 97], List.replicate 1024 7)])
      [⟨9, [0, 1, 97, 0, 111, 99, 116, 101, 116, 0]⟩, ⟨9, [0, 4, 0, 1]⟩, ⟨9, [0, 4, 0, 2]⟩]).1.reading
      = none :=
  ⟨rfl, rfl⟩

theorem ackCheck_of_isAckFor (r : ReadLoop) (p : Packet) (h : IsAckFor r.blockNumber p.data) :
    ackCheck r p = { r with blockNumber := r.blockNumber + 1 } := by
  rcases p with ⟨addr, data⟩
  obtain ⟨hi, lo, rest, hd, hv⟩ := h
  simp only at hd
  subst hd
  rw [ackCheck_cons]
  simp [hv]

theorem ackCheck_of_not_isAckFor (r : ReadLoop) (p : Packet)
    (h : ¬ IsAckFor r.blockNumber p.data) : ackCheck r p = r := by
  rcases p with ⟨addr, data⟩
  match data, h with
  | [], _ => exact ackCheck_short r _ (by simp)
  | [_], _ => exact ackCheck_short r _ (by simp)
  | [_, _], _ => exact ackCheck_short r _ (by simp)
  | [_, _, _], _ => exact ackCheck_short r _ (by simp)
  | a :: b :: hi :: lo :: rest, h =>
    rw [ackCheck_cons]
    have hn : ¬ (a = 0 ∧ b = 4 ∧ 256 * hi.val + lo.val = r.blockNumber) := by
      rintro ⟨rfl, rfl, hv⟩
      exact h ⟨hi, lo, rest, rfl, hv⟩
    simp [hn]

/-- A Data message sent by the loop head carries the loop's `blockNumber`, and the
loop then waits with the same `blockNumber`. -/
theorem readLoopSend_blockNumber (s : Server) (r : ReadLoop) :
    (∀ q ∈ (readLoopSend s r).2,
        q.data.take 4 = [0, 3, byte (r.blockNumber >>> 8), byte r.blockNumber]) ∧
    (∀ r2, (readLoopSend s r).1.reading = some r2 → r2.blockNumber = r.blockNumber) := by
  unfold readLoopSend
  split
  · simp
  · constructor
    · intro q hq
      simp at hq
    · intro r2 h2
      simp only [Option.some.injEq] at h2
      subst h2
      rfl
  · constructor
    · intro q hq
      simp only [List.mem_singleton] at hq
      subst hq
      simp
    · intro r2 h2
      simp only [Option.some.injEq] at h2
      subst h2
      rfl

/-- C8. While the read loop waits with block number `blockNumber`, a received
datagram that is an Ack for exactly that number increments `blockNumber`; any
other datagram (other opcode, other ack number, too short) leaves the loop
variables as they are, every Data message sent in response carries the same
block-number bytes as before, and the loop keeps waiting with the same
`blockNumber`. -/
theorem C8_blockNumber_only_on_matching_ack (env : Env) (s : Server) (r : ReadLoop)
    (p : Packet) (hr : s.reading = some r) :
    (IsAckFor r.blockNumber p.data → (ackCheck r p).blockNumber = r.blockNumber + 1) ∧
    (¬ IsAckFor r.blockNumber p.data →
      ackCheck r p = r ∧
      (∀ q ∈ (step env s p).2,
        q.data.take 4 = [0, 3, byte (r.blockNumber >>> 8), byte r.blockNumber]) ∧
      (∀ r2, (step env s p).1.reading = some r2 → r2.blockNumber = r.blockNumber)) ∧
    ((ackCheck r p).blockNumber ≠ r.blockNumber → IsAckFor r.blockNumber p.data) := by
  refine ⟨fun h => ?_, fun h => ?_, fun h => ?_⟩
  · rw [ackCheck_of_isAckFor r p h]
  · have e := ackCheck_of_not_isAckFor r p h
    by_cases hd : r.file.onDirectory s.fs = true
    · rw [step_spinning env s r p hr hd]
      refine ⟨e, fun q hq => ?_, fun r2 h2 => ?_⟩
      · simp at hq
      · simp only [hr, Option.some.injEq] at h2
        rw [← h2]
    · have hstep : step env s p = readLoopSend s r := by
        rw [step, hr]
        simp only [e]
        simp [hd]
      rw [hstep]
      exact ⟨e, readLoopSend_blockNumber s r⟩
  · by_contra hn
    exact h (by rw [ackCheck_of_not_isAckFor r p hn])

theorem C8_blockNumber_only_on_matching_ack_witness :
    (IsAckFor 1 [0, 4, 0, 7] →
      (ackCheck ⟨⟨[46, 47, 97], 512⟩, 1, 9⟩ ⟨5, [0, 4, 0, 7]⟩).blockNumber = 1 + 1) ∧
    (¬ IsAckFor 1 [0, 4, 0, 7] →
      ackCheck ⟨⟨[46, 47, 97], 512⟩, 1, 9⟩ ⟨5, [0, 4, 0, 7]⟩ = ⟨⟨[46, 47, 97], 512⟩, 1, 9⟩ ∧
      (∀ q ∈ (step exampleEnv
            { initial [([46, 47, 97], List.replicate 600 7)] with
              reading := some ⟨⟨[46, 47, 97], 512⟩, 1, 9⟩ } ⟨5, [0, 4, 0, 7]⟩).2,
        q.data.take 4 = [0, 3, byte (1 >>> 8), byte 1]) ∧
      (∀ r2, (step exampleEnv
            { initial [([46, 47, 97], List.replicate 600 7)] with
              reading := some ⟨⟨[46, 47, 97], 512⟩, 1, 9⟩ } ⟨5, [0, 4, 0, 7]⟩).1.reading = some r2 →
        r2.blockNumber = 1)) ∧
    ((ackCheck ⟨⟨[46, 47, 97], 512⟩, 1, 9⟩ ⟨5, [0, 4, 0, 7]⟩).blockNumber ≠ 1 →
      IsAckFor 1 [0, 4, 0, 7]) :=
  C8_blockNumber_only_on_matching_ack exampleEnv
    { initial [([46, 47, 97], List.replicate 600 7)] with
      reading := some ⟨⟨[46, 47, 97], 512⟩, 1, 9⟩ }
    ⟨⟨[46, 47, 97], 512⟩, 1, 9⟩ ⟨5, [0, 4, 0, 7]⟩ rfl

set_option maxRecDepth 100000 in
/-- C7, evaluated: a 1024-byte file (512 ones, 512 twos) is requested and Data 1
has been sent.  A received Ack for block 7 (also a non-Ack datagram, also a
one-byte datagram) does not make the server wait: it reads the next 512 bytes of
the file and sends them at once under block number 1, and the file offset moves
from 512 to 1024. -/
theorem C7_mismatch_sends_next_chunk :
    (step exampleEnv (initial [([46, 47, 97], List.replicate 512 1 ++ List.replicate 512 2)])
        ⟨9, [0, 1, 97, 0, 111, 99, 116, 101, 116, 0]⟩)
      = ({ initial [([46, 47, 97], List.replicate 512 1 ++ List.replicate 512 2)] with
            reading := some ⟨⟨[46, 47, 97], 512⟩, 1, 9⟩ },
         [⟨9, [0, 3, 0, 1] ++ List.replicate 512 1⟩]) ∧
    step exampleEnv
        { initial [([46, 47, 97], List.replicate 512 1 ++ List.replicate 512 2)] with
            reading := some ⟨⟨[46, 47, 97], 512⟩, 1, 9⟩ } ⟨9, [0, 4, 0, 7]⟩
      = ({ initial [([46, 47, 97], List.replicate 512 1 ++ List.replicate 512 2)] with
            reading := some ⟨⟨[46, 47, 97], 1024⟩, 1, 9⟩ },
         [⟨9, [0, 3, 0, 1] ++ List.replicate 512 2⟩]) ∧
    step exampleEnv
        { initial [([46, 47, 97], List.replicate 512 1 ++ List.replicate 512 2)] with
            reading := some ⟨⟨[46, 47, 97], 512⟩, 1, 9⟩ } ⟨9, [0, 5, 0, 1]⟩
      = ({ initial [([46, 47, 97], List.replicate 512 1 ++ List.replicate 512 2)] with
            reading := some ⟨⟨[46, 47, 97], 1024⟩, 1, 9⟩ },
         [⟨9, [0, 3, 0, 1] ++ List.replicate 512 2⟩]) ∧
    step exampleEnv
        { initial [([46, 47, 97], List.replicate 512 1 ++ List.replicate 512 2)] with
            reading := some ⟨⟨[46, 47, 97], 512⟩, 1, 9⟩ } ⟨9, [0]⟩
      = ({ initial [([46, 47, 97], List.replicate 512 1 ++ List.replicate 512 2)] with
            reading := some ⟨⟨[46, 47, 97], 1024⟩, 1, 9⟩ },
         [⟨9, [0, 3, 0, 1] ++ List.replicate 512 2⟩]) :=
  ⟨rfl, rfl, rfl, rfl⟩

/-! ## The write transfer -/

theorem content_store (fs : FS) (name : GoString) (v : List Byte) :
    (FS.store fs name v).content name = some v := by
  induction fs with
  | nil => simp [FS.store, FS.content]
  | cons kv t ih =>
    rcases kv with ⟨k, w⟩
    by_cases h : k = name
    · simp [FS.store, FS.content, h]
    · simp [FS.store, FS.content, h, ih]

theorem writeAt_end (c p : List Byte) : writeAt c c.length p = c ++ p := by
  simp [writeAt]

theorem goMake_length (buf : List Byte) (h : 4 ≤ buf.length) :
    goMake ((buf.length : Int) - 4) = some (List.replicate (buf.length - 4) 0) := by
  have hn : ¬ ((buf.length : Int) - 4 < 0) := by omega
  have ht : ((buf.length : Int) - 4).toNat = buf.length - 4 := by omega
  simp [goMake, hn, ht]

theorem read_payload (p : List Byte) (hp : p ≠ []) :
    (NewTftpReader p).Read (List.replicate p.length 0) = (.ok p.length, p, NewTftpReader []) := by
  cases p with
  | nil => exact absurd rfl hp
  | cons x xs => simp [TftpReader.Read, NewTftpReader]

/-- The DATA case with a write transfer in progress and a block number to read:
control reaches the allocation of line 265 with length `len(buf) - 4`. -/
theorem dataToAlloc_ok (s : Server) (buf : List Byte) (hi lo : Byte) (rest : List Byte)
    (hw : s.transmissionInProgress = true) :
    dataToAlloc s buf (NewTftpReader (hi :: lo :: rest)) =
      .ok ⟨if 256 * hi.val + lo.val > 1000 && !s.hideDataMessages
            then { s with hideDataMessages := true } else s,
          256 * hi.val + lo.val, NewTftpReader rest, (buf.length : Int) - 4⟩ := by
  simp only [dataToAlloc, hw, readInt16_cons]
  rfl

/-- The DATA case on a datagram with a non-empty payload `p`, while the write
handle stands at the end of content `c`. -/
theorem caseDATA_payload (s : Server) (a : Addr) (hi lo : Byte) (p : List Byte)
    (path : GoString) (c : List Byte)
    (hw : s.transmissionInProgress = true) (hfile : s.file = some ⟨path, c.length⟩)
    (hc : s.fs.content path = some c) (hp : p ≠ []) :
    caseDATA s a (0 :: 3 :: hi :: lo :: p) (NewTftpReader (hi :: lo :: p)) =
      ({ s with
          fs := s.fs.store path (c ++ p),
          file := some ⟨path, c.length + p.length⟩,
          transmissionInProgress := decide (512 ≤ p.length),
          hideDataMessages :=
            if p.length < 512 then false
            else (s.hideDataMessages || decide (256 * hi.val + lo.val > 1000)) },
       [⟨a, [0, 4, byte ((256 * hi.val + lo.val) >>> 8), byte (256 * hi.val + lo.val)]⟩]) := by
  have hlen : goMake (((0 :: 3 :: hi :: lo :: p).length : Int) - 4)
      = some (List.replicate p.length 0) := by
    have h := goMake_length (0 :: 3 :: hi :: lo :: p) (by simp)
    simpa using h
  rw [caseDATA, dataToAlloc_ok s _ hi lo p hw]
  simp only [dataFromAlloc, hlen, read_payload p hp]
  rcases s with ⟨fs, tip, hide, fname, file, reading⟩
  simp only at hw hfile hc
  subst hw hfile
  by_cases h1000 : 256 * hi.val + lo.val > 1000 <;> by_cases hh : hide = true <;>
    by_cases h512 : p.length < 512 <;>
    simp [fileWrite, hc, writeAt_end, seekAndReadAll, content_store, h1000, hh, h512] <;>
    omega

theorem block_bytes (b : Nat) (h : b < 65536) :
    256 * (byte (b >>> 8)).val + (byte b).val = b := by
  simp only [byte_val, Nat.shiftRight_eq_div_pow]
  omega

/-- One Data block with a non-empty payload during a write transfer: the payload
is appended, the block is acknowledged, and the transfer goes on exactly when
the payload has at least 512 bytes. -/
theorem step_dataBlock (env : Env) (s : Server) (d : DataBlock) (path : GoString)
    (c : List Byte) (hw : Writing s path c) (hp : d.payload ≠ [])
    (hlen : d.payload.length ≤ 1020) (hb : d.blockNum < 65536) :
    (step env s d.packet).2 = [d.ack] ∧
    (step env s d.packet).1.reading = none ∧
    (step env s d.packet).1.fs.content path = some (c ++ d.payload) ∧
    (step env s d.packet).1.file = some ⟨path, (c ++ d.payload).length⟩ ∧
    (step env s d.packet).1.filename = s.filename ∧
    (step env s d.packet).1.transmissionInProgress = decide (512 ≤ d.payload.length) := by
  obtain ⟨hr, htip, hfile, hc⟩ := hw
  have ht : (byte (d.blockNum >>> 8) :: byte d.blockNum :: d.payload).take 1022
      = byte (d.blockNum >>> 8) :: byte d.blockNum :: d.payload := by
    apply List.take_of_length_le
    simp only [List.length_cons]
    omega
  have hstep : step env s d.packet
      = caseDATA s d.addr (0 :: 3 :: byte (d.blockNum >>> 8) :: byte d.blockNum :: d.payload)
          (NewTftpReader (byte (d.blockNum >>> 8) :: byte d.blockNum :: d.payload)) := by
    rw [step, hr]
    simp only [DataBlock.packet, dataBytes, List.cons_append, List.nil_append,
      mainIter_opcode, ht]
  rw [hstep, caseDATA_payload s d.addr _ _ d.payload path c htip hfile hc hp,
    block_bytes d.blockNum hb]
  refine ⟨rfl, hr, content_store _ _ _, ?_, rfl, rfl⟩
  simp

theorem run_append (env : Env) (xs ys : List Packet) : ∀ s : Server,
    run env s (xs ++ ys)
      = ((run env (run env s xs).1 ys).1, (run env s xs).2 ++ (run env (run env s xs).1 ys).2) := by
  induction xs with
  | nil => intro s; simp [run_nil]
  | cons x xs ih =>
    intro s
    simp only [List.cons_append, run_cons, ih]
    simp

theorem sent_append (xs ys : List Event) : sent (xs ++ ys) = sent xs ++ sent ys := by
  induction xs with
  | nil => rfl
  | cons e t ih =>
    cases e <;> simp [sent, ih]

/-- Full 512-byte Data blocks during a write transfer: each is appended and
acknowledged, and the transfer stays in progress. -/
theorem run_fullBlocks (env : Env) (path : GoString) (full : List DataBlock) :
    ∀ (s : Server) (c : List Byte), Writing s path c →
      (∀ d ∈ full, d.payload.length = 512 ∧ d.blockNum < 65536) →
      Writing (run env s (full.map DataBlock.packet)).1 path
          (c ++ (full.map DataBlock.payload).flatten) ∧
      (run env s (full.map DataBlock.packet)).1.filename = s.filename ∧
      (run env s (full.map DataBlock.packet)).2
        = full.flatMap (fun d => [Event.recv d.packet, Event.send d.ack]) := by
  induction full with
  | nil =>
    intro s c hw _
    simpa [run_nil] using hw
  | cons d ds ih =>
    intro s c hw hall
    obtain ⟨h512, hb⟩ := hall d (by simp)
    have hp : d.payload ≠ [] := by
      intro e
      rw [e] at h512
      simp at h512
    obtain ⟨hout, hr, hc, hfile, hname, htip⟩ :=
      step_dataBlock env s d path c hw hp (by omega) hb
    have hw2 : Writing (step env s d.packet).1 path (c ++ d.payload) :=
      ⟨hr, by rw [htip]; simp; omega, hfile, hc⟩
    obtain ⟨i1, i2, i3⟩ := ih (step env s d.packet).1 (c ++ d.payload) hw2
      (fun x hx => hall x (by simp [hx]))
    simp only [List.map_cons, run_cons, List.flatMap_cons, List.flatten_cons, hout, i3]
    refine ⟨?_, ?_, by simp⟩
    · rw [← List.append_assoc]
      exact i1
    · rw [i2, hname]

theorem caseWRQ_request (env : Env) (s : Server) (addr : Addr) (f m opts : List Byte)
    (hidle : s.transmissionInProgress = false)
    (hf : (0 : Byte) ∉ f) (hm : (0 : Byte) ∉ m) :
    caseWRQ env s addr (NewTftpReader (f ++ 0 :: (m ++ 0 :: opts))) =
      (match osCreate env s.fs (env.folder ++ decodeBytes f) with
       | (.error _, fs) =>
         ({ s with transmissionInProgress := true, filename := decodeBytes f,
                   fs := fs, file := none }, [])
       | (.ok file, fs) =>
         ({ s with transmissionInProgress := true, filename := decodeBytes f,
                   fs := fs, file := some file }, [⟨addr, [0, 4, 0, 0]⟩])) := by
  simp only [caseWRQ, hidle, readString_ok f _ hf, readString_ok m _ hm]
  simp only [Bool.false_eq_true, if_false]

/-- A well-formed WRQ while no transfer is in progress and the file can be
created: the file is created empty, the transfer is in progress, Ack 0 is sent. -/
theorem step_WRQ (env : Env) (s : Server) (addr : Addr) (f m opts : List Byte)
    (hs : s.reading = none) (hidle : s.transmissionInProgress = false)
    (hf : (0 : Byte) ∉ f) (hm : (0 : Byte) ∉ m) (hfit : f.length + m.length + 4 ≤ 1024)
    (hcreate : env.canCreate (env.folder ++ decodeBytes f) = true) :
    step env s ⟨addr, requestBytes 2 f m opts⟩ =
      ({ s with transmissionInProgress := true, filename := decodeBytes f,
                fs := s.fs.store (env.folder ++ decodeBytes f) [],
                file := some ⟨env.folder ++ decodeBytes f, 0⟩ }, [⟨addr, [0, 4, 0, 0]⟩]) := by
  obtain ⟨opts2, ht⟩ := request_take f m opts hfit
  rw [step, hs]
  simp only [requestBytes, mainIter_opcode, ht]
  show caseWRQ env s addr _ = _
  rw [caseWRQ_request env s addr f m opts2 hidle hf hm]
  simp [osCreate, hcreate, hs]

theorem sent_acks (l : List DataBlock) :
    sent (l.flatMap (fun d => [Event.recv d.packet, Event.send d.ack]))
      = l.map DataBlock.ack := by
  induction l with
  | nil => rfl
  | cons d ds ih =>
    rw [List.flatMap_cons, List.map_cons]
    show d.ack :: sent (ds.flatMap (fun d => [Event.recv d.packet, Event.send d.ack])) = _
    rw [ih]

/-- C9. Starting with no transfer in progress, a well-formed WRQ whose file can
be created, followed by Data blocks whose payloads have exactly 512 bytes and a
last Data block with 1 to 511 bytes (block numbers arbitrary 16-bit values):
the file content is the concatenation of the payloads in order, the server
sends Ack 0 after the WRQ and the Ack of each block right after receiving it,
and no transfer is in progress at the end. -/
theorem C9_write_transfer (env : Env) (s : Server) (addr : Addr) (f m opts : List Byte)
    (full : List DataBlock) (last : DataBlock)
    (hs : s.reading = none) (hidle : s.transmissionInProgress = false)
    (hf : (0 : Byte) ∉ f) (hm : (0 : Byte) ∉ m) (hfit : f.length + m.length + 4 ≤ 1024)
    (hcreate : env.canCreate (env.folder ++ decodeBytes f) = true)
    (hfull : ∀ d ∈ full, d.payload.length = 512 ∧ d.blockNum < 65536)
    (hlast : 1 ≤ last.payload.length ∧ last.payload.length ≤ 511 ∧ last.blockNum < 65536) :
    (run env s (⟨addr, requestBytes 2 f m opts⟩ :: (full ++ [last]).map DataBlock.packet)).1.fs.content
        (env.folder ++ decodeBytes f)
      = some ((full.map DataBlock.payload).flatten ++ last.payload) ∧
    (run env s (⟨addr, requestBytes 2 f m opts⟩ :: (full ++ [last]).map DataBlock.packet)).2
      = Event.recv ⟨addr, requestBytes 2 f m opts⟩ :: Event.send ⟨addr, [0, 4, 0, 0]⟩ ::
          (full ++ [last]).flatMap (fun d => [Event.recv d.packet, Event.send d.ack]) ∧
    sent (run env s (⟨addr, requestBytes 2 f m opts⟩ :: (full ++ [last]).map DataBlock.packet)).2
      = ⟨addr, [0, 4, 0, 0]⟩ :: (full ++ [last]).map DataBlock.ack ∧
    (run env s (⟨addr, requestBytes 2 f m opts⟩ ::
        (full ++ [last]).map DataBlock.packet)).1.transmissionInProgress = false ∧
    (run env s (⟨addr, requestBytes 2 f m opts⟩ ::
        (full ++ [last]).map DataBlock.packet)).1.reading = none := by
  obtain ⟨hl1, hl2, hl3⟩ := hlast
  have hwrq := step_WRQ env s addr f m opts hs hidle hf hm hfit hcreate
  have hw0 : Writing (step env s ⟨addr, requestBytes 2 f m opts⟩).1
      (env.folder ++ decodeBytes f) [] := by
    rw [hwrq]
    exact ⟨hs, rfl, rfl, content_store _ _ _⟩
  obtain ⟨hw1, _, htr1⟩ := run_fullBlocks env (env.folder ++ decodeBytes f) full
    (step env s ⟨addr, requestBytes 2 f m opts⟩).1 [] hw0 hfull
  have hp : last.payload ≠ [] := by
    intro e
    rw [e] at hl1
    simp at hl1
  obtain ⟨hout, hr, hc, _, _, htip⟩ := step_dataBlock env _ last _ _ hw1 hp (by omega) hl3
  have htrace : (run env s (⟨addr, requestBytes 2 f m opts⟩ ::
        (full ++ [last]).map DataBlock.packet)).2
      = Event.recv ⟨addr, requestBytes 2 f m opts⟩ :: Event.send ⟨addr, [0, 4, 0, 0]⟩ ::
          (full ++ [last]).flatMap (fun d => [Event.recv d.packet, Event.send d.ack]) := by
    simp only [run_cons, List.map_append, run_append, htr1, List.map_cons, List.map_nil,
      run_nil, hout, List.flatMap_append, List.flatMap_cons, List.flatMap_nil]
    rw [hwrq]
    simp
  refine ⟨?_, htrace, ?_, ?_, ?_⟩
  · simp only [run_cons, List.map_append, run_append, List.map_cons, List.map_nil, run_nil]
    simpa using hc
  · rw [htrace]
    simp only [sent, sent_acks]
  · simp only [run_cons, List.map_append, run_append, List.map_cons, List.map_nil, run_nil]
    rw [htip]
    simp
    omega
  · simp only [run_cons, List.map_append, run_append, List.map_cons, List.map_nil, run_nil]
    exact hr

theorem C9_write_transfer_witness :
    (run exampleEnv (initial []) (⟨9, requestBytes 2 [97] [111] []⟩ ::
        ([] ++ [(⟨9, 1, [5, 6]⟩ : DataBlock)]).map DataBlock.packet)).1.fs.content
        (exampleEnv.folder ++ decodeBytes [97])
      = some ((([] : List DataBlock).map DataBlock.payload).flatten ++ [5, 6]) ∧
    (run exampleEnv (initial []) (⟨9, requestBytes 2 [97] [111] []⟩ ::
        ([] ++ [(⟨9, 1, [5, 6]⟩ : DataBlock)]).map DataBlock.packet)).2
      = Event.recv ⟨9, requestBytes 2 [97] [111] []⟩ :: Event.send ⟨9, [0, 4, 0, 0]⟩ ::
          ([] ++ [(⟨9, 1, [5, 6]⟩ : DataBlock)]).flatMap
            (fun d => [Event.recv d.packet, Event.send d.ack]) ∧
    sent (run exampleEnv (initial []) (⟨9, requestBytes 2 [97] [111] []⟩ ::
        ([] ++ [(⟨9, 1, [5, 6]⟩ : DataBlock)]).map DataBlock.packet)).2
      = ⟨9, [0, 4, 0, 0]⟩ :: ([] ++ [(⟨9, 1, [5, 6]⟩ : DataBlock)]).map DataBlock.ack ∧
    (run exampleEnv (initial []) (⟨9, requestBytes 2 [97] [111] []⟩ ::
        ([] ++ [(⟨9, 1, [5, 6]⟩ : DataBlock)]).map DataBlock.packet)).1.transmissionInProgress
      = false ∧
    (run exampleEnv (initial []) (⟨9, requestBytes 2 [97] [111] []⟩ ::
        ([] ++ [(⟨9, 1, [5, 6]⟩ : DataBlock)]).map DataBlock.packet)).1.reading = none :=
  C9_write_transfer exampleEnv (initial []) 9 [97] [111] [] [] ⟨9, 1, [5, 6]⟩ rfl rfl
    (by decide) (by decide) (by decide) rfl (by simp) (by decide)

/-- C10, evaluated: a WRQ starts a write transfer; the Data datagram
`[0, 3, 0, 1]` with an empty payload is then dropped at the payload read
(`Read` returns `io.EOF`): no Ack is sent and `transmissionInProgress` stays true. -/
theorem C10_empty_data_dropped :
    step exampleEnv (initial []) ⟨9, [0, 2, 97, 0, 111, 99, 116, 101, 116, 0]⟩
      = ({ initial [([46, 47, 97], [])] with
            transmissionInProgress := true, filename := [97],
            file := some ⟨[46, 47, 97], 0⟩ }, [⟨9, [0, 4, 0, 0]⟩]) ∧
    step exampleEnv
        { initial [([46, 47, 97], [])] with
            transmissionInProgress := true, filename := [97],
            file := some ⟨[46, 47, 97], 0⟩ } ⟨9, [0, 3, 0, 1]⟩
      = ({ initial [([46, 47, 97], [])] with
            transmissionInProgress := true, filename := [97],
            file := some ⟨[46, 47, 97], 0⟩ }, []) :=
  ⟨rfl, rfl⟩

/-! ## Datagrams the outer loop drops -/

theorem run_dropped (env : Env) (s : Server) (p : Packet) (ps : List Packet)
    (h : step env s p = (s, [])) :
    run env s (p :: ps) = ((run env s ps).1, Event.recv p :: (run env s ps).2) := by
  rw [run_cons, h]
  rfl

/-- C12. In the outer loop with no write transfer in progress, a datagram with
opcode 3, whatever follows the opcode (any block number, any payload, also a
truncated one), sends nothing and leaves the whole state, the file system
included, as it was. -/
theorem C12_data_without_transfer_dropped (env : Env) (s : Server) (addr : Addr)
    (body : List Byte) (hs : s.reading = none) (hidle : s.transmissionInProgress = false) :
    step env s ⟨addr, 0 :: 3 :: body⟩ = (s, []) := by
  rw [step, hs]
  simp only [mainIter_opcode]
  show caseDATA s addr _ _ = _
  simp [caseDATA, dataToAlloc, hidle]

theorem C12_data_without_transfer_dropped_witness :
    step exampleEnv (initial [([46, 47, 97], [7])]) ⟨9, 0 :: 3 :: [0, 1, 5, 6]⟩
      = (initial [([46, 47, 97], [7])], []) :=
  C12_data_without_transfer_dropped exampleEnv (initial [([46, 47, 97], [7])]) 9 [0, 1, 5, 6]
    rfl rfl

/-- C14. In the outer loop, a datagram shorter than two bytes, or one whose
16-bit opcode is none of 1, 2, 3 (a stray Ack included), sends nothing and
leaves the whole state as it was; the loop goes on with the next datagram. -/
theorem C14_unknown_opcode_dropped (env : Env) (s : Server) (p : Packet) (ps : List Packet)
    (hs : s.reading = none)
    (hp : p.data.length < 2 ∨ ∃ a b rest, p.data = a :: b :: rest ∧
      256 * a.val + b.val ≠ 1 ∧ 256 * a.val + b.val ≠ 2 ∧ 256 * a.val + b.val ≠ 3) :
    step env s p = (s, []) ∧
    run env s (p :: ps) = ((run env s ps).1, Event.recv p :: (run env s ps).2) := by
  have h : step env s p = (s, []) := by
    rw [step, hs]
    rcases p with ⟨addr, data⟩
    rcases hp with hlt | ⟨a, b, rest, hd, h1, h2, h3⟩
    · simp only at hlt
      obtain ⟨r2, hr⟩ := readInt16_short (NewTftpReader (data.take 1024))
        (by simp only [NewTftpReader, List.length_take]; omega)
      simp only [mainIter, hr]
    · simp only at hd
      subst hd
      have e : (a :: b :: rest).take 1024 = a :: b :: rest.take 1022 := by simp
      simp only [mainIter, e, readInt16_cons]
  exact ⟨h, run_dropped env s p ps h⟩

theorem C14_unknown_opcode_dropped_witness :
    step exampleEnv writingExample ⟨9, [0, 4, 0, 1]⟩ = (writingExample, []) ∧
    run exampleEnv writingExample (⟨9, [0, 4, 0, 1]⟩ :: [])
      = ((run exampleEnv writingExample []).1,
          Event.recv ⟨9, [0, 4, 0, 1]⟩ :: (run exampleEnv writingExample []).2) :=
  C14_unknown_opcode_dropped exampleEnv writingExample ⟨9, [0, 4, 0, 1]⟩ [] rfl
    (Or.inr ⟨0, 4, [0, 1], rfl, by decide, by decide, by decide⟩)

theorem readLoopSend_form (s : Server) (r : ReadLoop) :
    ∀ q ∈ (readLoopSend s r).2, IsDataOrAck q.data := by
  unfold readLoopSend
  split
  · simp
  · simp
  · intro q hq
    simp only [List.mem_singleton] at hq
    subst hq
    exact Or.inl ⟨_, _, _, rfl⟩

theorem caseRRQ_form (env : Env) (s : Server) (addr : Addr) (msg : TftpReader) :
    ∀ q ∈ (caseRRQ env s addr msg).2, IsDataOrAck q.data := by
  unfold caseRRQ
  split
  · simp
  · split
    · simp
    · split
      · simp
      · exact readLoopSend_form s _

theorem caseWRQ_form (env : Env) (s : Server) (addr : Addr) (msg : TftpReader) :
    ∀ q ∈ (caseWRQ env s addr msg).2, IsDataOrAck q.data := by
  unfold caseWRQ
  split
  · simp
  · split
    · simp
    · split
      · simp
      · dsimp only
        split
        · simp
        · intro q hq
          simp only [List.mem_singleton] at hq
          subst hq
          exact Or.inr ⟨0, 0, rfl⟩

theorem caseDATA_form (s : Server) (addr : Addr) (buf : List Byte) (msg : TftpReader) :
    ∀ q ∈ (caseDATA s addr buf msg).2, IsDataOrAck q.data := by
  unfold caseDATA
  split
  · simp
  · split
    · rename_i a r hr
      intro q hq
      unfold dataFromAlloc at hr
      split at hr
      · simp at hr
      · split at hr
        · simp only [Option.some.injEq] at hr
          subst hr
          simp at hq
        · split at hr
          · simp only [Option.some.injEq] at hr
            subst hr
            simp at hq
          · simp only [Option.some.injEq] at hr
            subst hr
            simp only [List.mem_singleton] at hq
            subst hq
            exact Or.inr ⟨_, _, rfl⟩
    · simp

theorem step_form (env : Env) (s : Server) (p : Packet) :
    ∀ q ∈ (step env s p).2, IsDataOrAck q.data := by
  unfold step
  split
  · split
    · simp
    · exact readLoopSend_form s _
  · unfold mainIter
    dsimp only
    split
    · simp
    · split
      · exact caseRRQ_form env s p.addr _
      · exact caseWRQ_form env s p.addr _
      · exact caseDATA_form s p.addr _ _
      · simp

theorem sent_map_send (l : List Packet) : sent (l.map Event.send) = l := by
  induction l with
  | nil => rfl
  | cons x xs ih => simp [sent, ih]

theorem run_form (env : Env) (ps : List Packet) :
    ∀ (s : Server), ∀ q ∈ sent (run env s ps).2, IsDataOrAck q.data := by
  induction ps with
  | nil =>
    intro s q hq
    simp [run_nil, sent] at hq
  | cons p ps ih =>
    intro s q hq
    rw [run_cons] at hq
    simp only [sent, sent_append, sent_map_send, List.mem_append] at hq
    rcases hq with hq | hq
    · exact step_form env s p q hq
    · exact ih _ q hq

/-- C13. From any state and for any sequence of received datagrams, every
datagram the server sends is a Data message (`0x00 0x03`, two block-number
bytes, payload) or an Ack message (`0x00 0x04`, two block-number bytes); none
starts with the Error opcode `0x00 0x05`. -/
theorem C13_only_data_and_ack_sent (env : Env) (s : Server) (ps : List Packet) (q : Packet)
    (hq : q ∈ sent (run env s ps).2) :
    IsDataOrAck q.data ∧ ¬ ∃ rest, q.data = 0 :: 5 :: rest := by
  have h := run_form env ps s q hq
  refine ⟨h, ?_⟩
  rintro ⟨rest, hr⟩
  rcases h with ⟨hi, lo, payload, hd⟩ | ⟨hi, lo, hd⟩
  · rw [hr] at hd
    simp only [List.cons.injEq] at hd
    exact absurd hd.2.1 (by decide)
  · rw [hr] at hd
    simp only [List.cons.injEq] at hd
    exact absurd hd.2.1 (by decide)

theorem C13_only_data_and_ack_sent_witness :
    IsDataOrAck (⟨9, [0, 4, 0, 0]⟩ : Packet).data ∧
    ¬ ∃ rest, (⟨9, [0, 4, 0, 0]⟩ : Packet).data = 0 :: 5 :: rest :=
  C13_only_data_and_ack_sent exampleEnv (initial [])
    [⟨9, [0, 2, 97, 0, 111, 99, 116, 101, 116, 0]⟩] ⟨9, [0, 4, 0, 0]⟩ (by decide)

/-! ## The payload buffer of the DATA case -/

theorem readInt16_ok_inv (r r2 : TftpReader) (v : Nat) (h : r.ReadInt16 = (.ok v, r2)) :
    ∃ hi lo : Byte, r.unread = hi :: lo :: r2.unread ∧ v = 256 * hi.val + lo.val := by
  rcases r with ⟨l⟩
  match l, h with
  | [], h => cases h
  | [_], h => cases h
  | a :: b :: t, h =>
    have e := readInt16_cons a b t
    simp only [NewTftpReader] at e
    rw [e] at h
    simp only [Prod.mk.injEq, Except.ok.injEq] at h
    obtain ⟨hv, hr⟩ := h
    subst hr
    exact ⟨a, b, rfl, hv.symm⟩

theorem mainToAlloc_inv (s : Server) (p : Packet) (a : AllocPoint)
    (h : mainToAlloc s p = some a) :
    ∃ msg, (NewTftpReader (p.data.take 1024)).ReadInt16 = (.ok 3, msg) ∧
      dataToAlloc s (p.data.take 1024) msg = .ok a := by
  simp only [mainToAlloc] at h
  split at h
  · simp at h
  · rename_i msgType msg hread
    split at h
    · split at h
      · simp at h
      · rename_i a2 ha
        simp only [Option.some.injEq] at h
        subst h
        exact ⟨msg, hread, ha⟩
    · simp at h

theorem dataToAlloc_inv (s : Server) (buf : List Byte) (msg : TftpReader) (a : AllocPoint)
    (h : dataToAlloc s buf msg = .ok a) :
    s.transmissionInProgress = true ∧ msg.ReadInt16 = (.ok a.blockNum, a.msg) ∧
      a.length = (buf.length : Int) - 4 := by
  unfold dataToAlloc at h
  split at h
  · simp at h
  · rename_i htip
    split at h
    · simp at h
    · rename_i blockNum msg2 hread
      simp only [Except.ok.injEq] at h
      subst h
      refine ⟨?_, hread, rfl⟩
      simpa using htip

theorem dataFromAlloc_some (addr : Addr) (a : AllocPoint) (blockDate : List Byte)
    (h : goMake a.length = some blockDate) : ∃ r, dataFromAlloc addr a = some r := by
  unfold dataFromAlloc
  rw [h]
  dsimp only
  split
  · exact ⟨_, rfl⟩
  · split
    · exact ⟨_, rfl⟩
    · exact ⟨_, rfl⟩

/-- When control reaches the allocation, the outer loop's result on the datagram
is what the DATA case computes from the allocation on. -/
theorem mainIter_alloc (env : Env) (s : Server) (p : Packet) (a : AllocPoint)
    (r : Server × List Packet) (h : mainToAlloc s p = some a)
    (hr : dataFromAlloc p.addr a = some r) : mainIter env s p = r := by
  obtain ⟨msg, hread, ha⟩ := mainToAlloc_inv s p a h
  simp only [mainIter, hread, caseDATA, ha, hr]

/-- A datagram of fewer than four bytes never reaches the allocation of line 265:
the opcode read or the block-number read fails first, or another case is taken. -/
theorem short_datagram_no_alloc (s : Server) (p : Packet)
    (h : (p.data.take 1024).length < 4) : mainToAlloc s p = none := by
  cases hm : mainToAlloc s p with
  | none => rfl
  | some a =>
    exfalso
    obtain ⟨msg, hread, ha⟩ := mainToAlloc_inv s p a hm
    obtain ⟨_, hread2, _⟩ := dataToAlloc_inv s _ msg a ha
    obtain ⟨x, y, e1, _⟩ := readInt16_ok_inv _ _ _ hread
    obtain ⟨hi, lo, e2, _⟩ := readInt16_ok_inv _ _ _ hread2
    simp only [NewTftpReader] at e1
    rw [e2] at e1
    rw [e1] at h
    simp only [List.length_cons] at h
    omega

/-- C19. For every state and every received datagram `p` (with
`buf = p.data.take 1024`), whenever control in `main` reaches the allocation
`make([]byte, len(buf)-4)` of the DATA case (`mainToAlloc s p = some a`): both
`ReadInt16` calls have succeeded (opcode 3, then the block number); `len(buf)` is
at least 4, so the length passed to `make` is `len(buf) - 4 ≥ 0` and `make` does
not panic; the reader holds exactly the `len(buf) - 4` bytes after the first
four; when that number is positive, `Read` into the fresh buffer returns
`len(buf) - 4` with the whole payload copied and nothing left unread; and the
outer loop's result on `p` is the one computed from the allocation on. -/
theorem C19_payload_length_nonneg (env : Env) (s : Server) (p : Packet) (a : AllocPoint)
    (hreach : mainToAlloc s p = some a) :
    (∃ m1, (NewTftpReader (p.data.take 1024)).ReadInt16 = (.ok 3, m1) ∧
      m1.ReadInt16 = (.ok a.blockNum, a.msg)) ∧
    4 ≤ (p.data.take 1024).length ∧
    a.length = ((p.data.take 1024).length : Int) - 4 ∧
    0 ≤ a.length ∧
    goMake a.length = some (List.replicate ((p.data.take 1024).length - 4) 0) ∧
    a.msg.unread = (p.data.take 1024).drop 4 ∧
    a.msg.unread.length = (p.data.take 1024).length - 4 ∧
    (0 < (p.data.take 1024).length - 4 →
      a.msg.Read (List.replicate ((p.data.take 1024).length - 4) 0)
        = (.ok ((p.data.take 1024).length - 4), (p.data.take 1024).drop 4,
            NewTftpReader [])) ∧
    (∃ r, dataFromAlloc p.addr a = some r ∧ mainIter env s p = r) := by
  obtain ⟨msg, hread, ha⟩ := mainToAlloc_inv s p a hreach
  obtain ⟨_, hread2, hlength⟩ := dataToAlloc_inv s _ msg a ha
  obtain ⟨x, y, e1, _⟩ := readInt16_ok_inv _ _ _ hread
  obtain ⟨hi, lo, e2, _⟩ := readInt16_ok_inv _ _ _ hread2
  simp only [NewTftpReader] at e1
  rw [e2] at e1
  have h4 : 4 ≤ (p.data.take 1024).length := by
    rw [e1]
    simp only [List.length_cons]
    omega
  have hlen : (p.data.take 1024).length - 4 = a.msg.unread.length := by
    rw [e1]
    simp only [List.length_cons]
    omega
  have hdrop : (p.data.take 1024).drop 4 = a.msg.unread := by
    rw [e1]
    rfl
  have hmake : goMake a.length
      = some (List.replicate ((p.data.take 1024).length - 4) 0) := by
    rw [hlength]
    exact goMake_length _ h4
  obtain ⟨r, hr⟩ := dataFromAlloc_some p.addr a _ hmake
  refine ⟨⟨msg, hread, hread2⟩, h4, hlength, by omega, hmake, hdrop.symm, hlen.symm, ?_,
    ⟨r, hr, mainIter_alloc env s p a r hreach hr⟩⟩
  intro hpos
  have hne : a.msg.unread ≠ [] := by
    intro e
    rw [hlen, e] at hpos
    simp at hpos
  rw [hlen, hdrop]
  exact read_payload a.msg.unread hne

theorem C19_payload_length_nonneg_witness :
    (∃ m1, (NewTftpReader ((⟨9, [0, 3, 0, 1, 5, 6]⟩ : Packet).data.take 1024)).ReadInt16
        = (.ok 3, m1) ∧
      m1.ReadInt16 = (.ok (⟨writingExample, 1, NewTftpReader [5, 6], 2⟩ : AllocPoint).blockNum,
        (⟨writingExample, 1, NewTftpReader [5, 6], 2⟩ : AllocPoint).msg)) ∧
    4 ≤ ((⟨9, [0, 3, 0, 1, 5, 6]⟩ : Packet).data.take 1024).length ∧
    (⟨writingExample, 1, NewTftpReader [5, 6], 2⟩ : AllocPoint).length
      = (((⟨9, [0, 3, 0, 1, 5, 6]⟩ : Packet).data.take 1024).length : Int) - 4 ∧
    0 ≤ (⟨writingExample, 1, NewTftpReader [5, 6], 2⟩ : AllocPoint).length ∧
    goMake (⟨writingExample, 1, NewTftpReader [5, 6], 2⟩ : AllocPoint).length
      = some (List.replicate (((⟨9, [0, 3, 0, 1, 5, 6]⟩ : Packet).data.take 1024).length - 4) 0) ∧
    (⟨writingExample, 1, NewTftpReader [5, 6], 2⟩ : AllocPoint).msg.unread
      = ((⟨9, [0, 3, 0, 1, 5, 6]⟩ : Packet).data.take 1024).drop 4 ∧
    (⟨writingExample, 1, NewTftpReader [5, 6], 2⟩ : AllocPoint).msg.unread.length
      = ((⟨9, [0, 3, 0, 1, 5, 6]⟩ : Packet).data.take 1024).length - 4 ∧
    (0 < ((⟨9, [0, 3, 0, 1, 5, 6]⟩ : Packet).data.take 1024).length - 4 →
      (⟨writingExample, 1, NewTftpReader [5, 6], 2⟩ : AllocPoint).msg.Read
          (List.replicate (((⟨9, [0, 3, 0, 1, 5, 6]⟩ : Packet).data.take 1024).length - 4) 0)
        = (.ok (((⟨9, [0, 3, 0, 1, 5, 6]⟩ : Packet).data.take 1024).length - 4),
            ((⟨9, [0, 3, 0, 1, 5, 6]⟩ : Packet).data.take 1024).drop 4, NewTftpReader [])) ∧
    (∃ r, dataFromAlloc (⟨9, [0, 3, 0, 1, 5, 6]⟩ : Packet).addr
          (⟨writingExample, 1, NewTftpReader [5, 6], 2⟩ : AllocPoint) = some r ∧
      mainIter exampleEnv writingExample ⟨9, [0, 3, 0, 1, 5, 6]⟩ = r) :=
  C19_payload_length_nonneg exampleEnv writingExample ⟨9, [0, 3, 0, 1, 5, 6]⟩
    ⟨writingExample, 1, NewTftpReader [5, 6], 2⟩ rfl

/-! ## Requests that meet a failure or a transfer in progress -/

/-- C17, evaluated: the WRQ for `./x`, whose creation fails, sends no Ack but
leaves `transmissionInProgress` true (it is set at line 223, before
`os.Create`), with a nil file.  A later WRQ for `./a`, which could be created,
is then rejected as "already in progress": no Ack, state unchanged.  A later
Data datagram passes the guard of the DATA case and fails at `file.Write`. -/
theorem C17_create_failure_keeps_flag :
    step denyEnv (initial []) ⟨9, [0, 2, 120, 0, 111, 99, 116, 101, 116, 0]⟩
      = ({ initial [] with transmissionInProgress := true, filename := [120] }, []) ∧
    step denyEnv { initial [] with transmissionInProgress := true, filename := [120] }
        ⟨9, [0, 2, 97, 0, 111, 99, 116, 101, 116, 0]⟩
      = ({ initial [] with transmissionInProgress := true, filename := [120] }, []) ∧
    step denyEnv (initial []) ⟨9, [0, 2, 97, 0, 111, 99, 116, 101, 116, 0]⟩
      = ({ initial [([46, 47, 97], [])] with
            transmissionInProgress := true, filename := [97],
            file := some ⟨[46, 47, 97], 0⟩ }, [⟨9, [0, 4, 0, 0]⟩]) ∧
    step denyEnv { initial [] with transmissionInProgress := true, filename := [120] }
        ⟨9, [0, 3, 0, 1, 5, 6]⟩
      = ({ initial [] with transmissionInProgress := true, filename := [120] }, []) :=
  ⟨rfl, rfl, rfl, rfl⟩

set_option maxRecDepth 100000 in
/-- C18, evaluated: a write transfer to `./b` has just been accepted.  A
well-formed RRQ for the 600-byte file `./a` is not refused (the RRQ case has no
`transmissionInProgress` guard): Data 1 with 512 bytes is sent and the read
loop is entered.  The next datagram, Data block 1 of the write transfer, is
consumed by the read loop: nothing is written to `./b`, no Ack is sent, and the
remaining 88 bytes of `./a` go out as another Data message. -/
theorem C18_rrq_during_write_starts_read :
    step exampleEnv (initial [([46, 47, 97], List.replicate 600 7)])
        ⟨5, [0, 2, 98, 0, 111, 99, 116, 101, 116, 0]⟩
      = (writingBesideFile none, [⟨5, [0, 4, 0, 0]⟩]) ∧
    step exampleEnv (writingBesideFile none) ⟨9, [0, 1, 97, 0, 111, 99, 116, 101, 116, 0]⟩
      = (writingBesideFile (some ⟨⟨[46, 47, 97], 512⟩, 1, 9⟩),
         [⟨9, [0, 3, 0, 1] ++ List.replicate 512 7⟩]) ∧
    step exampleEnv (writingBesideFile (some ⟨⟨[46, 47, 97], 512⟩, 1, 9⟩))
        ⟨5, [0, 3, 0, 1, 5, 6]⟩
      = (writingBesideFile (some ⟨⟨[46, 47, 97], 600⟩, 1, 9⟩),
         [⟨9, [0, 3, 0, 1] ++ List.replicate 88 7⟩]) :=
  ⟨rfl, rfl, rfl⟩

/-! ## Block numbers beyond 65535 -/

theorem content_head (k : GoString) (v : List Byte) (t : FS) :
    FS.content ((k, v) :: t) k = some v := by
  simp [FS.content]

theorem step_RRQ_open (env : Env) (s : Server) (addr : Addr) (f m opts c : List Byte)
    (hs : s.reading = none) (hf : (0 : Byte) ∉ f) (hm : (0 : Byte) ∉ m)
    (hfit : f.length + m.length + 4 ≤ 1024)
    (hc : s.fs.content (env.folder ++ decodeBytes f) = some c) :
    step env s ⟨addr, requestBytes 1 f m opts⟩
      = readLoopSend s ⟨⟨env.folder ++ decodeBytes f, 0⟩, 1, addr⟩ := by
  obtain ⟨opts2, ht⟩ := request_take f m opts hfit
  rw [step, hs]
  simp only [requestBytes, mainIter_opcode, ht]
  show caseRRQ env s addr _ = _
  rw [caseRRQ_request env s addr f m opts2 hf hm]
  simp [osOpen, hc]

/-- The read loop, waiting, on the Ack of its current block while more of the
file is left: `blockNumber` is incremented and the next block is sent. -/
theorem step_matching_ack (env : Env) (s : Server) (r : ReadLoop) (a : Packet) (c : List Byte)
    (hr : s.reading = some r) (hc : s.fs.content r.file.name = some c)
    (hack : IsAckFor r.blockNumber a.data) (hoff : r.file.off < c.length) :
    step env s a =
      ({ s with reading := some ⟨⟨r.file.name, r.file.off + min 512 (c.length - r.file.off)⟩,
            r.blockNumber + 1, r.addr⟩ },
       [⟨r.addr, dataBytes (r.blockNumber + 1) ((c.drop r.file.off).take 512)⟩]) := by
  rw [step_reading env s r a c hr hc, ackCheck_of_isAckFor r a hack,
    readLoopSend_data s { r with blockNumber := r.blockNumber + 1 } c hc hoff]

/-- The read loop, waiting, on a datagram that is not the Ack of its current
block while more of the file is left: the next bytes of the file are sent under
the unchanged `blockNumber`. -/
theorem step_other_datagram (env : Env) (s : Server) (r : ReadLoop) (a : Packet) (c : List Byte)
    (hr : s.reading = some r) (hc : s.fs.content r.file.name = some c)
    (hack : ¬ IsAckFor r.blockNumber a.data) (hoff : r.file.off < c.length) :
    step env s a =
      ({ s with reading := some ⟨⟨r.file.name, r.file.off + min 512 (c.length - r.file.off)⟩,
            r.blockNumber, r.addr⟩ },
       [⟨r.addr, dataBytes r.blockNumber ((c.drop r.file.off).take 512)⟩]) := by
  rw [step_reading env s r a c hr hc, ackCheck_of_not_isAckFor r a hack,
    readLoopSend_data s r c hc hoff]

/-- C16 (amended). When the read loop has just sent the Data message `d` for a
block number of at most 65535, an Ack datagram `[0, 4, hi, lo]` whose bytes
`hi, lo` are bytes 2..3 of `d` is accepted: `blockNumber` is incremented and the
loop goes on to the next block. -/
theorem C16_ack_accepted_up_to_65535 (env : Env) (s s1 : Server) (r : ReadLoop)
    (d a : Packet) (hi lo : Byte)
    (hsend : readLoopSend s r = (s1, [d]))
    (hbn : r.blockNumber ≤ 65535)
    (hd : (d.data.drop 2).take 2 = [hi, lo])
    (ha : a.data = [0, 4, hi, lo]) :
    ∃ r1, s1.reading = some r1 ∧ r1.blockNumber = r.blockNumber ∧
      ackCheck r1 a = { r1 with blockNumber := r.blockNumber + 1 } ∧
      step env s1 a = readLoopSend s1 { r1 with blockNumber := r.blockNumber + 1 } := by
  unfold readLoopSend at hsend
  split at hsend
  · simp at hsend
  · simp at hsend
  · rename_i send file hread
    obtain ⟨c, hc, hname⟩ := fileRead_ok s.fs r.file 512 send file hread
    simp only [Prod.mk.injEq, List.cons.injEq, and_true] at hsend
    obtain ⟨hs1, hdd⟩ := hsend
    subst hs1 hdd
    simp only [List.cons_append, List.nil_append, List.drop_succ_cons, List.drop_zero,
      List.take_succ_cons, List.take_zero, List.cons.injEq, and_true] at hd
    obtain ⟨h1, h2⟩ := hd
    have hack : IsAckFor r.blockNumber a.data := by
      refine ⟨hi, lo, [], ha, ?_⟩
      rw [← h1, ← h2]
      exact block_bytes r.blockNumber (by omega)
    refine ⟨{ r with file := file }, rfl, rfl, ?_, ?_⟩
    · exact ackCheck_of_isAckFor { r with file := file } a hack
    · rw [step_reading env _ { r with file := file } a c rfl (by rw [← hname] at hc; exact hc),
        ackCheck_of_isAckFor { r with file := file } a hack]

theorem C16_ack_accepted_up_to_65535_witness :
    ∃ r1, ({ initial [([46, 47, 97], [5, 6])] with
              reading := some ⟨⟨[46, 47, 97], 2⟩, 65535, 9⟩ } : Server).reading = some r1 ∧
      r1.blockNumber = (⟨⟨[46, 47, 97], 0⟩, 65535, 9⟩ : ReadLoop).blockNumber ∧
      ackCheck r1 ⟨5, [0, 4, 255, 255]⟩
        = { r1 with blockNumber := (⟨⟨[46, 47, 97], 0⟩, 65535, 9⟩ : ReadLoop).blockNumber + 1 } ∧
      step exampleEnv { initial [([46, 47, 97], [5, 6])] with
              reading := some ⟨⟨[46, 47, 97], 2⟩, 65535, 9⟩ } ⟨5, [0, 4, 255, 255]⟩
        = readLoopSend { initial [([46, 47, 97], [5, 6])] with
              reading := some ⟨⟨[46, 47, 97], 2⟩, 65535, 9⟩ }
            { r1 with blockNumber := (⟨⟨[46, 47, 97], 0⟩, 65535, 9⟩ : ReadLoop).blockNumber + 1 } :=
  C16_ack_accepted_up_to_65535 exampleEnv (initial [([46, 47, 97], [5, 6])])
    { initial [([46, 47, 97], [5, 6])] with reading := some ⟨⟨[46, 47, 97], 2⟩, 65535, 9⟩ }
    ⟨⟨[46, 47, 97], 0⟩, 65535, 9⟩ ⟨9, [0, 3, 255, 255, 5, 6]⟩ ⟨5, [0, 4, 255, 255]⟩ 255 255
    rfl (by decide) rfl rfl

/-- The send/ack loop from the head of the iteration for block `k + 1`, when the
datagrams received next are the acks of blocks `k + 1, ..., k + n` and the file
has more than `512 * (k + n)` bytes: the loop then waits for the ack of block
`k + n + 1`. -/
theorem readLoop_prefix (env : Env) (name : GoString) (c : List Byte) (addr : Addr)
    (acks : List Packet) :
    ∀ (k : Nat) (s : Server),
      s.fs.content name = some c →
      acks.map Packet.data = (List.range' k acks.length).map (fun i => ackBytes (i + 1)) →
      512 * (k + acks.length) < c.length →
      k + acks.length ≤ 65535 →
      (run env (readLoopSend s ⟨⟨name, min (512 * k) c.length⟩, k + 1, addr⟩).1 acks).1
        = { s with reading := some ⟨⟨name, min (512 * (k + acks.length + 1)) c.length⟩,
                                    k + acks.length + 1, addr⟩ } := by
  induction acks with
  | nil =>
    intro k s hc _ hlen _
    simp only [List.length_nil, Nat.add_zero] at hlen ⊢
    have hmin : min (512 * k) c.length = 512 * k := by omega
    have hoff : 512 * k + min 512 (c.length - 512 * k) = min (512 * (k + 1)) c.length := by
      omega
    rw [hmin, readLoopSend_data s _ c hc (by simpa using hlen), run_nil]
    simp only [hoff]
  | cons a as ih =>
    intro k s hc hacks hlen hbound
    simp only [List.length_cons] at hlen hbound hacks ⊢
    have hlt : 512 * k < c.length := by omega
    have hmin : min (512 * k) c.length = 512 * k := by omega
    have hoff : 512 * k + min 512 (c.length - 512 * k) = min (512 * (k + 1)) c.length := by
      omega
    rw [List.range'_succ, List.map_cons, List.map_cons] at hacks
    obtain ⟨ha, has⟩ := List.cons.inj hacks
    rw [hmin, readLoopSend_data s _ c hc hlt]
    simp only [run_cons, step, Handle.onDirectory, hc, Option.isNone_some, Bool.false_eq_true,
      if_false]
    have hack : ackCheck ⟨⟨name, 512 * k + min 512 (c.length - 512 * k)⟩, k + 1, addr⟩ a
        = ⟨⟨name, min (512 * (k + 1)) c.length⟩, k + 1 + 1, addr⟩ := by
      rw [hoff]
      exact ackCheck_ackBytes ⟨⟨name, min (512 * (k + 1)) c.length⟩, k + 1, addr⟩ a ha
        (by simp only; omega)
    rw [hack]
    have h := ih (k + 1)
      { s with reading := some ⟨⟨name, 512 * k + min 512 (c.length - 512 * k)⟩, k + 1, addr⟩ }
      hc has (by omega) (by omega)
    rw [h]
    have e1 : k + 1 + as.length + 1 = k + (as.length + 1) + 1 := by omega
    simp only [e1]

theorem firstAcks_length (n : Nat) : (firstAcks n).length = n := by
  simp [firstAcks]

theorem firstAcks_data (n : Nat) :
    (firstAcks n).map Packet.data
      = (List.range' 0 (firstAcks n).length).map (fun i => ackBytes (i + 1)) := by
  rw [firstAcks_length, ← List.range_eq_range']
  simp [firstAcks]

theorem bigFile_length : bigFile.length = 33554532 := List.length_replicate _ _

theorem run_cons_fst (env : Env) (s : Server) (p : Packet) (ps : List Packet) :
    (run env s (p :: ps)).1 = (run env (step env s p).1 ps).1 := rfl

theorem bigFile_content (reading : Option ReadLoop) :
    (bigFileServer reading).fs.content [46, 47, 97] = some bigFile :=
  content_head _ _ _

theorem not_isAckFor_wrapped : ¬ IsAckFor 65536 [0, 4, 0, 0] := by
  rintro ⟨hi, lo, rest, hd, hv⟩
  have h1 := hi.isLt
  have h2 := lo.isLt
  omega

/-- C16 (counterexample). The file `./a` has 65536 full blocks and 100 bytes
more.  After the RRQ and the acks of blocks 1..65534 the loop waits with
`blockNumber` 65535.  The ack `[0, 4, 0xFF, 0xFF]` is accepted and the next
Data message goes out with block-number bytes `0, 0` (`blockNumber` is 65536).
The Ack `[0, 4, 0, 0]`, whose bytes equal bytes 2..3 of that Data message,
is not accepted: `blockNumber` stays 65536 and the next Data message again
carries the bytes `0, 0`. -/
theorem C16_no_wrap_beyond_65535 :
    (run exampleEnv (bigFileServer none)
        (⟨9, requestBytes 1 [97] [111] []⟩ :: firstAcks 65534)).1
      = bigFileServer (some ⟨⟨[46, 47, 97], 33553920⟩, 65535, 9⟩) ∧
    step exampleEnv (bigFileServer (some ⟨⟨[46, 47, 97], 33553920⟩, 65535, 9⟩))
        ⟨9, [0, 4, 255, 255]⟩
      = (bigFileServer (some ⟨⟨[46, 47, 97], 33554432⟩, 65536, 9⟩),
         [⟨9, [0, 3, 0, 0] ++ blockOf bigFile 65535⟩]) ∧
    ackCheck ⟨⟨[46, 47, 97], 33554432⟩, 65536, 9⟩ ⟨9, [0, 4, 0, 0]⟩
      = ⟨⟨[46, 47, 97], 33554432⟩, 65536, 9⟩ ∧
    step exampleEnv (bigFileServer (some ⟨⟨[46, 47, 97], 33554432⟩, 65536, 9⟩))
        ⟨9, [0, 4, 0, 0]⟩
      = (bigFileServer (some ⟨⟨[46, 47, 97], 33554532⟩, 65536, 9⟩),
         [⟨9, [0, 3, 0, 0] ++ blockOf bigFile 65536⟩]) := by
  refine ⟨?_, ?_, rfl, ?_⟩
  · have hstep := step_RRQ_open exampleEnv (bigFileServer none) 9 [97] [111] [] bigFile rfl
      (by decide) (by decide) (by decide) (bigFile_content none)
    have hp := readLoop_prefix exampleEnv [46, 47, 97] bigFile 9 (firstAcks 65534) 0
      (bigFileServer none) (bigFile_content none) (firstAcks_data 65534)
      (by rw [firstAcks_length, bigFile_length]; omega) (by rw [firstAcks_length]; omega)
    rw [firstAcks_length, bigFile_length] at hp
    have e0 : min (512 * 0) 33554532 = 0 := by decide
    have e1 : min (512 * (0 + 65534 + 1)) 33554532 = 33553920 := by decide
    have e2 : 0 + 65534 + 1 = 65535 := rfl
    have e3 : 0 + 1 = 1 := rfl
    rw [e0, e1, e2, e3] at hp
    have en : exampleEnv.folder ++ decodeBytes [97] = [46, 47, 97] := rfl
    rw [en] at hstep
    rw [run_cons_fst, hstep, hp]
    rfl
  · have h := step_matching_ack exampleEnv
      (bigFileServer (some ⟨⟨[46, 47, 97], 33553920⟩, 65535, 9⟩))
      ⟨⟨[46, 47, 97], 33553920⟩, 65535, 9⟩ ⟨9, [0, 4, 255, 255]⟩ bigFile rfl
      (bigFile_content _) ⟨255, 255, [], rfl, rfl⟩ (by rw [bigFile_length]; decide)
    rw [bigFile_length] at h
    have e1 : 33553920 + min 512 (33554532 - 33553920) = 33554432 := by decide
    simp only [e1] at h
    exact h
  · have h := step_other_datagram exampleEnv
      (bigFileServer (some ⟨⟨[46, 47, 97], 33554432⟩, 65536, 9⟩))
      ⟨⟨[46, 47, 97], 33554432⟩, 65536, 9⟩ ⟨9, [0, 4, 0, 0]⟩ bigFile rfl
      (bigFile_content _) not_isAckFor_wrapped (by rw [bigFile_length]; decide)
    rw [bigFile_length] at h
    have e1 : 33554432 + min 512 (33554532 - 33554432) = 33554532 := by decide
    simp only [e1] at h
    exact h

/-! ## Requests that arrive during a read transfer, and requests for a directory -/

/-- An RRQ with an empty filename names the served folder itself.  `os.Open`
succeeds on the directory, `file.Read` fails with an error other than `io.EOF`,
and the `continue` of line 146 repeats the failing read for ever: nothing is
sent, and the program never handles another datagram. -/
theorem rrq_for_directory_spins :
    osOpen exampleEnv [] (exampleEnv.folder ++ decodeBytes []) = .ok ⟨[46, 47], 0⟩ ∧
    step exampleEnv (initial []) ⟨9, requestBytes 1 [] [111, 99, 116, 101, 116] []⟩
      = ({ initial [] with reading := some ⟨⟨[46, 47], 0⟩, 1, 9⟩ }, []) ∧
    step exampleEnv { initial [] with reading := some ⟨⟨[46, 47], 0⟩, 1, 9⟩ }
        ⟨5, [0, 2, 97, 0, 111, 99, 116, 101, 116, 0]⟩
      = ({ initial [] with reading := some ⟨⟨[46, 47], 0⟩, 1, 9⟩ }, []) ∧
    step exampleEnv { initial [] with reading := some ⟨⟨[46, 47], 0⟩, 1, 9⟩ } ⟨9, [0, 4, 0, 1]⟩
      = ({ initial [] with reading := some ⟨⟨[46, 47], 0⟩, 1, 9⟩ }, []) :=
  ⟨rfl, rfl, rfl, rfl⟩

end GoTftp
